import Mathlib

/-!
Verification development for the Context Engine core (session versioning and
project-context resolution engine). The definitions below are a shallow
embedding of the TypeScript sources:

  - `src/business/session-manager.ts` (SessionManager: saveSession,
    resumeSession, listSessions, fuzzySearchSessions, retrieveFullSession,
    createSyntheticFile, calculateContentHash),
  - `src/project-manager.ts` (ProjectManager: detectTechStack,
    calculateContextHash, createOrUpdateProjectContext, createSnapshot,
    getProjectContext),
  - `src/database/connection.ts` (DatabaseConnection.transaction /
    DatabaseConnection.query over a pg pool), and
  - `src/database/schema.ts` (table constraints enforced by the store).

The relational store is modelled as an explicit state (`DB`) of row lists.
The two external primitives the code calls, the sha-256 digest
(`crypto.createHash`) and `JSON.parse`, are modelled as parameters
(`Prim`), since they are library builtins, not code of this repository.
JavaScript strings are modelled as Lean strings (UTF-16 code units agree
with code points on the basic multilingual plane, which covers all inputs
considered here).
-/

/-! ## Generic string and list helpers (JavaScript / SQL semantics) -/

/-- Character-list version of JavaScript `String.prototype.startsWith`. -/
def charsStartWith : List Char → List Char → Bool
  | [], _ => true
  | _ :: _, [] => false
  | p :: ps, c :: cs => p == c && charsStartWith ps cs

/-- Containment of `pat` in a character list, scanning left to right. -/
def charsContain (pat : List Char) : List Char → Bool
  | [] => charsStartWith pat []
  | c :: cs => charsStartWith pat (c :: cs) || charsContain pat cs

/-- JavaScript `s.includes(pat)`. -/
def strIncludes (s pat : String) : Bool :=
  charsContain pat.data s.data

/-- JavaScript `s.toLowerCase()` (ASCII-faithful). -/
def lowerStr (s : String) : String :=
  String.mk (s.data.map Char.toLower)

/-- JavaScript `s.toUpperCase()` (ASCII-faithful). -/
def upperStr (s : String) : String :=
  String.mk (s.data.map Char.toUpper)

/-- Postgres `s ILIKE :pat:` where the parameter is used as a substring
pattern with percent signs on both sides: case-insensitive containment. -/
def ilikeContains (s pat : String) : Bool :=
  charsContain (lowerStr pat).data (lowerStr s).data

/-- JavaScript `Array.prototype.join(sep)`. -/
def joinSep (sep : String) : List String → String
  | [] => ""
  | [x] => x
  | x :: xs => x ++ sep ++ joinSep sep xs

/-- JavaScript `s.padStart(w, c)`. -/
def padStart (s : String) (w : Nat) (c : Char) : String :=
  if s.length < w then String.mk (List.replicate (w - s.length) c) ++ s else s

/-- SQL `COALESCE(MAX(column), 0)` over a list of values. -/
def listMax : List Nat → Nat
  | [] => 0
  | x :: xs => max x (listMax xs)

/-- First value bound to key `k` in an association list (JavaScript property
read on an object built left to right). -/
def alookup {α : Type} : List (String × α) → String → Option α
  | [], _ => none
  | (k', v) :: rest, k => if k' == k then some v else alookup rest k

/-- JavaScript property write: replace the value in place when the key is
present, otherwise append the binding at the end. -/
def setKey {α : Type} : List (String × α) → String → α → List (String × α)
  | [], k, v => [(k, v)]
  | (k', v') :: rest, k, v =>
    if k' == k then (k, v) :: rest else (k', v') :: setKey rest k v

/-- Removal of every binding of key `k` (used to model a property whose
value is `undefined` being dropped by `JSON.stringify`). -/
def delKey {α : Type} (m : List (String × α)) (k : String) : List (String × α) :=
  m.filter (fun e => !(e.1 == k))

/-- Boolean duplicate-freedom check for strings. -/
def nodupStr : List String → Bool
  | [] => true
  | x :: xs => !(xs.contains x) && nodupStr xs

/-- Last `n` elements, JavaScript `Array.prototype.slice(-n)` for `n > 0`. -/
def takeLast {α : Type} (n : Nat) (l : List α) : List α :=
  l.drop (l.length - n)

/-- Split of a character list at every occurrence of `sep` (JavaScript
`String.prototype.split` with a one-character separator). -/
def splitChar (sep : Char) : List Char → List (List Char)
  | [] => [[]]
  | c :: cs =>
    let r := splitChar sep cs
    if c == sep then [] :: r
    else
      match r with
      | x :: xs => (c :: x) :: xs
      | [] => [[c]]

/-- JavaScript `s.split("\n")`. -/
def splitNl (s : String) : List String :=
  (splitChar '\n' s.data).map String.mk

/-- Whitespace test used by `trim`. -/
def isWs (c : Char) : Bool :=
  c == ' ' || c == '\t' || c == '\n' || c == '\r'

/-- JavaScript `s.trim()` and SQL `trim(s)`. -/
def strTrim (s : String) : String :=
  String.mk (((s.data.dropWhile isWs).reverse.dropWhile isWs).reverse)

/-! ## JSON values

`Jval` models the JSON-representable JavaScript values flowing through the
engine (metadata maps, tech-stack facts, parsed manifests). -/

inductive Jval where
  | str (s : String)
  | num (n : Int)
  | bool (b : Bool)
  | null
  | arr (elems : List Jval)
  | obj (fields : List (String × Jval))

/-- JavaScript truthiness of a possibly-absent value (absence is
`undefined`, hence falsy). -/
def jTruthy : Option Jval → Bool
  | none => false
  | some (.bool b) => b
  | some (.str s) => !(s == "")
  | some (.num n) => !(n == 0)
  | some .null => false
  | some (.arr _) => true
  | some (.obj _) => true

/-- JavaScript property access `v.k` (non-objects yield `undefined`). -/
def jGet : Jval → String → Option Jval
  | .obj fs, k => alookup fs k
  | _, _ => none

/-- Optional-chaining access `v?.k`. -/
def jGetOpt (v : Option Jval) (k : String) : Option Jval :=
  match v with
  | none => none
  | some w => jGet w k

/-- JavaScript `Object.keys`. -/
def jKeys : Jval → List String
  | .obj fs => fs.map Prod.fst
  | .arr xs => (List.range xs.length).map (fun i => toString i)
  | _ => []

/-- Escaping of one character inside a JSON string literal. -/
def escChar (c : Char) : String :=
  if c = '"' then "\\\""
  else if c = '\\' then "\\\\"
  else if c = '\n' then "\\n"
  else if c = '\r' then "\\r"
  else if c = '\t' then "\\t"
  else String.mk [c]

/-- JSON string literal for `s`. -/
def jsonQuote (s : String) : String :=
  "\"" ++ String.join (s.data.map escChar) ++ "\""

/-- Entries of an object selected and ordered by a `JSON.stringify`
replacer array: for each listed key in order, its value if present. -/
def selEntries (P : List String) (fs : List (String × Jval)) : List (String × Jval) :=
  P.filterMap (fun k => (alookup fs k).map (fun v => (k, v)))

theorem alookup_sizeOf {fs : List (String × Jval)} {k : String} {v : Jval}
    (h : alookup fs k = some v) : sizeOf v < sizeOf fs := by
  induction fs with
  | nil => simp [alookup] at h
  | cons e rest ih =>
    obtain ⟨k', v'⟩ := e
    by_cases hk : k' == k
    · simp [alookup, hk] at h
      subst h
      simp only [List.cons.sizeOf_spec, Prod.mk.sizeOf_spec]
      omega
    · simp [alookup, hk] at h
      have := ih h
      simp only [List.cons.sizeOf_spec, Prod.mk.sizeOf_spec]
      omega

theorem mem_selEntries_sizeOf {P : List String} {fs : List (String × Jval)}
    {e : String × Jval} (h : e ∈ selEntries P fs) : sizeOf e.2 < sizeOf fs := by
  unfold selEntries at h
  obtain ⟨k, _, hk⟩ := List.mem_filterMap.mp h
  cases hl : alookup fs k with
  | none => rw [hl] at hk; simp at hk
  | some v =>
    rw [hl] at hk
    simp at hk
    have hv : e.2 = v := by rw [← hk]
    rw [hv]
    exact alookup_sizeOf hl

/-- Embeds `JSON.stringify(value, replacerArray)`: every object at every
depth is filtered and ordered by the replacer array `P`; arrays are
serialized in full. -/
def jstr (P : List String) : Jval → String
  | .str s => jsonQuote s
  | .num n => toString n
  | .bool b => cond b "true" "false"
  | .null => "null"
  | .arr xs =>
      "[" ++ joinSep "," (xs.attach.map (fun x => jstr P x.1)) ++ "]"
  | .obj fs =>
      "\x7b" ++
        joinSep ","
          ((selEntries P fs).attach.map
            (fun e => jsonQuote e.1.1 ++ ":" ++ jstr P e.1.2)) ++
        "\x7d"
termination_by v => sizeOf v
decreasing_by
  · have := List.sizeOf_lt_of_mem x.2
    simp only [Jval.arr.sizeOf_spec]
    omega
  · have := mem_selEntries_sizeOf e.2
    simp only [Jval.obj.sizeOf_spec]
    omega

theorem jstr_arr (P : List String) (xs : List Jval) :
    jstr P (.arr xs) = "[" ++ joinSep "," (xs.map (jstr P)) ++ "]" := by
  simp only [jstr, List.attach_map_val]

theorem jstr_obj (P : List String) (fs : List (String × Jval)) :
    jstr P (.obj fs) =
      "\x7b" ++
        joinSep ","
          ((selEntries P fs).map (fun e => jsonQuote e.1 ++ ":" ++ jstr P e.2)) ++
        "\x7d" := by
  simp only [jstr, List.attach, List.attachWith, List.map_pmap, List.pmap_eq_map]

/-- Sorting of a list of strings, JavaScript `Array.prototype.sort()`
(code-unit lexicographic order). -/
def sortStrings (l : List String) : List String :=
  List.insertionSort (· ≤ ·) l

/-- Embeds `ProjectManager.calculateContextHash` (the `fingerprintFacts`
contract of the specification): the facts record is serialized with a
key-sorted replacer array and the serialization is digested. The digest
function `sha256hex` models the external `crypto.createHash` call. -/
def calculateContextHash (sha256hex : String → String)
    (tech_stack : List (String × Jval)) : String :=
  sha256hex (jstr (sortStrings (tech_stack.map Prod.fst)) (Jval.obj tech_stack))

/-! ## Content hash (`SessionManager.calculateContentHash`) -/

/-- JavaScript `ToInt32`: reduction of an integer into the signed 32-bit
range, as performed by the bitwise operators. -/
def toInt32 (z : Int) : Int :=
  if z % 4294967296 < 2147483648 then z % 4294967296 else z % 4294967296 - 4294967296

/-- The accumulation loop of `calculateContentHash`: for each UTF-16 code
unit, `hash = ((hash << 5) - hash) + char; hash = hash & hash`. -/
def contentHashLoop (h : Int) : List Char → Int
  | [] => h
  | c :: cs => contentHashLoop (toInt32 (toInt32 (h * 32) - h + (c.toNat : Int))) cs

/-- JavaScript `n.toString(16)` for a non-negative integer. -/
def natToHex (n : Nat) : String :=
  String.mk (Nat.toDigits 16 n)

/-- Embeds `SessionManager.calculateContentHash`: a 32-bit rolling hash,
taken absolute, printed in hexadecimal and left-padded with zeros to 64
characters. -/
def calculateContentHash (content : String) : String :=
  padStart (natToHex (contentHashLoop 0 content.data).natAbs) 64 '0'

/-! ## External primitives

The engine calls two runtime builtins: `crypto.createHash("sha256")` and
`JSON.parse`. They are not code of this repository, so they enter the
embedding as parameters; every theorem quantifies over them. -/

structure Prim where
  /-- Models `crypto.createHash("sha256").update(s).digest("hex")`. -/
  sha256hex : String → String
  /-- Models `JSON.parse`: `none` models a thrown parse error. -/
  jsonParse : String → Option Jval

/-! ## Tech stack detection (`ProjectManager.detectTechStack`) -/

/-- Result record of `detectTechStack`. -/
structure TechInfo where
  tech_stack : List (String × Jval)
  project_type : String
  programming_languages : List String
  build_system : Option String
  test_framework : Option String

/-- One file of a save request (a path/content pair). -/
structure FileInput where
  path : String
  content : String
deriving Repr, DecidableEq

/-- JavaScript `Set.prototype.add` on a list kept in insertion order. -/
def addLang (ls : List String) (l : String) : List String :=
  if ls.contains l then ls else ls ++ [l]

/-- JavaScript `path.split(".").pop()?.toLowerCase()`. -/
def extOf (path : String) : String :=
  lowerStr (String.mk ((splitChar '.' path.data).getLastD []))

/-- The `package.json` branch of the detector loop. -/
def detectPackageJson (prim : Prim) (content : String) (st : TechInfo) : TechInfo :=
  match prim.jsonParse content with
  | none => st
  | some packageData =>
    let deps := jGet packageData "dependencies"
    let devDeps := jGet packageData "devDependencies"
    let depsObj := if jTruthy deps then deps.getD (.obj []) else .obj []
    let devDepsObj := if jTruthy devDeps then devDeps.getD (.obj []) else .obj []
    let ts1 := setKey st.tech_stack "npm_packages" (.arr ((jKeys depsObj).map .str))
    let ts2 := setKey ts1 "dev_packages" (.arr ((jKeys devDepsObj).map .str))
    let scripts := jGet packageData "scripts"
    let build_system :=
      if jTruthy scripts then
        let names := jKeys (scripts.getD (.obj []))
        if names.any (fun s =>
            strIncludes s "npm" || strIncludes s "yarn" || strIncludes s "pnpm") then
          some "npm"
        else st.build_system
      else st.build_system
    let test_framework :=
      if jTruthy devDeps then
        if jTruthy (jGetOpt devDeps "jest") || jTruthy (jGetOpt devDeps "@jest/core") then
          some "jest"
        else if jTruthy (jGetOpt devDeps "vitest") then some "vitest"
        else if jTruthy (jGetOpt devDeps "mocha") then some "mocha"
        else if jTruthy (jGetOpt devDeps "pytest") then some "pytest"
        else st.test_framework
      else st.test_framework
    let project_type :=
      if jTruthy (jGetOpt deps "express") || jTruthy (jGetOpt deps "fastify") then
        "api-service"
      else if jTruthy (jGetOpt deps "react") || jTruthy (jGetOpt deps "@types/react") then
        "web-app"
      else if jTruthy (jGetOpt deps "electron") then "desktop-app"
      else if jTruthy (jGetOpt deps "react") || jTruthy (jGetOpt deps "@react-native") then
        "mobile-app"
      else st.project_type
    { st with
      tech_stack := ts2
      build_system := build_system
      test_framework := test_framework
      project_type := project_type }

/-- The `tsconfig.json` branch of the detector loop. -/
def detectTsconfig (prim : Prim) (content : String) (st : TechInfo) : TechInfo :=
  match prim.jsonParse content with
  | none => st
  | some tsConfig =>
    let ts1 := setKey st.tech_stack "tsconfig" tsConfig
    let target := jGetOpt (jGet tsConfig "compilerOptions") "target"
    let ts2 :=
      if jTruthy target then setKey ts1 "typescript_target" (target.getD .null)
      else ts1
    { st with tech_stack := ts2 }

/-- The TypeScript/JavaScript extension test of the detector loop. -/
def tsFamilyExt (ext : String) : Bool :=
  ext == "ts" || ext == "tsx" || ext == "js" || ext == "jsx"

/-- The React content markers of the detector loop. -/
def reactMarks (content : String) : Bool :=
  strIncludes content "import React" || strIncludes content "from \"react\"" ||
    strIncludes content "from 'react'"

/-- The Node.js content markers of the detector loop. -/
def nodeMarks (content : String) : Bool :=
  strIncludes content "require(" || strIncludes content "module.exports" ||
    strIncludes content "const express"

/-- The Vue content markers of the detector loop. -/
def vueMarks (content : String) : Bool :=
  strIncludes content "import { createApp }" || strIncludes content "from \"vue\""

/-- The Angular content markers of the detector loop. -/
def angularMarks (content : String) : Bool :=
  strIncludes content "@angular/core" || strIncludes content "NgModule"

/-- One iteration of the `detectTechStack` file loop, transcribed branch by
branch from `ProjectManager.detectTechStack`. -/
def detectStep (prim : Prim) (st : TechInfo) (file : FileInput) : TechInfo :=
  let path := file.path
  let content := file.content
  let ext := extOf path
  -- TypeScript / JavaScript sources
  let st :=
    if tsFamilyExt ext then
      let st := { st with
        programming_languages :=
          addLang st.programming_languages
            (if ext == "ts" || ext == "tsx" then "typescript" else "javascript") }
      let st :=
        if reactMarks content then
          { st with tech_stack := setKey st.tech_stack "react" (.bool true)
                    project_type := "web-app" }
        else st
      let st :=
        if nodeMarks content then
          { st with tech_stack := setKey st.tech_stack "nodejs" (.bool true) }
        else st
      let st :=
        if vueMarks content then
          { st with tech_stack := setKey st.tech_stack "vue" (.bool true)
                    project_type := "web-app" }
        else st
      let st :=
        if angularMarks content then
          { st with tech_stack := setKey st.tech_stack "angular" (.bool true)
                    project_type := "web-app" }
        else st
      st
    else st
  -- Python sources
  let st :=
    if ext == "py" then
      let st := { st with
        programming_languages := addLang st.programming_languages "python" }
      let st :=
        if strIncludes content "import flask" || strIncludes content "from flask" then
          { st with tech_stack := setKey st.tech_stack "flask" (.bool true)
                    project_type := "api-service" }
        else st
      let st :=
        if strIncludes content "import django" || strIncludes content "from django" then
          { st with tech_stack := setKey st.tech_stack "django" (.bool true)
                    project_type := "web-app" }
        else st
      let st :=
        if strIncludes content "import fastapi" || strIncludes content "from fastapi" then
          { st with tech_stack := setKey st.tech_stack "fastapi" (.bool true)
                    project_type := "api-service" }
        else st
      st
    else st
  -- Dependency manifest
  let st := if path == "package.json" then detectPackageJson prim content st else st
  -- Compiler configuration
  let st := if path == "tsconfig.json" then detectTsconfig prim content st else st
  -- Python requirements
  let st :=
    if path == "requirements.txt" then
      let st := { st with
        programming_languages := addLang st.programming_languages "python" }
      let dependencies := (splitNl content).filter (fun l => !(strTrim l == ""))
      let st := { st with
        tech_stack := setKey st.tech_stack "python_packages" (.arr (dependencies.map .str)) }
      if dependencies.any (fun dep => strIncludes dep "django") then
        { st with project_type := "web-app" }
      else if dependencies.any (fun dep =>
          strIncludes dep "flask" || strIncludes dep "fastapi") then
        { st with project_type := "api-service" }
      else st
    else st
  -- Rust manifest
  let st :=
    if path == "Cargo.toml" then
      let st := { st with
        programming_languages := addLang st.programming_languages "rust" }
      let cargoContent := lowerStr content
      if strIncludes cargoContent "axum" then { st with project_type := "api-service" }
      else if strIncludes cargoContent "yew" then { st with project_type := "web-app" }
      else { st with project_type := "cli-tool" }
    else st
  -- Go manifest
  let st :=
    if path == "go.mod" then
      { st with
        programming_languages := addLang st.programming_languages "go"
        project_type :=
          if strIncludes content "github.com/gin-gonic" then "api-service" else "cli-tool" }
    else st
  st

/-- Initial detector state. -/
def detectInit : TechInfo :=
  { tech_stack := []
    project_type := "other"
    programming_languages := []
    build_system := none
    test_framework := none }

/-- The detector loop over all files, before the final default. -/
def detectLoop (prim : Prim) (files : List FileInput) : TechInfo :=
  files.foldl (detectStep prim) detectInit

/-- Embeds `ProjectManager.detectTechStack`: the file loop followed by the
language-only default (a TypeScript/JavaScript or Python project with no
explicit signal defaults to `cli-tool`). -/
def detectTechStack (prim : Prim) (files : List FileInput) : TechInfo :=
  let st := detectLoop prim files
  if st.project_type == "other" then
    if st.programming_languages.contains "typescript" ||
        st.programming_languages.contains "javascript" then
      { st with project_type := "cli-tool" }
    else if st.programming_languages.contains "python" then
      { st with project_type := "cli-tool" }
    else st
  else st

/-! ## Relational store model

Row types mirror the tables created by `schema.ts`. Generated ids
(`gen_random_uuid()`) are modelled by a single fresh-id counter, and
`NOW()` by a logical clock ticking once per operation. -/

structure SessionRow where
  id : Nat
  userId : String
  name : String
  projectName : String
  version : Nat
  metadata : List (String × Jval)
  snapshotId : Option Nat
  createdAt : Nat
  updatedAt : Nat

structure FileRow where
  id : Nat
  sessionId : Nat
  path : String
  content : String
  contentHash : String
  lineCount : Nat

structure ConvRow where
  id : Nat
  sessionId : Nat
  role : String
  content : String
  createdAt : Int

structure SummaryRow where
  id : Nat
  sessionId : Nat
  summary : String

/-- One key-file excerpt inside a snapshot. -/
structure KeyFile where
  path : String
  type : String
  content : String

structure ContextRow where
  id : Nat
  userId : String
  projectName : String
  description : Option Jval
  techStack : List (String × Jval)
  projectType : String
  languages : List String
  buildSystem : Option String
  testFramework : Option String
  contextHash : String
  isActive : Bool
  lastModifiedAt : Nat

structure SnapshotRow where
  id : Nat
  contextId : Nat
  version : Nat
  fileTree : List (String × Jval)
  keyFiles : List KeyFile
  dependencies : Jval
  devDependencies : Jval
  reason : String
  createdBy : String

/-- The visible (committed) state of the relational store. -/
structure DB where
  sessions : List SessionRow
  files : List FileRow
  convs : List ConvRow
  summaries : List SummaryRow
  contexts : List ContextRow
  snapshots : List SnapshotRow
  nextId : Nat
  clock : Nat

/-- The empty store. -/
def DB.empty : DB :=
  { sessions := [], files := [], convs := [], summaries := [], contexts := [],
    snapshots := [], nextId := 0, clock := 0 }

/-- Versions stored for one (user id, session name, project name) key, in
row order. -/
def versionsOf (u n p : String) (db : DB) : List Nat :=
  (db.sessions.filter (fun s => s.userId == u && s.name == n && s.projectName == p)).map
    (fun s => s.version)

/-- File rows of one session, in row order. -/
def filesOf (db : DB) (sid : Nat) : List FileRow :=
  db.files.filter (fun f => f.sessionId == sid)

/-- Snapshot rows of one project context, in row order. -/
def snapshotsOf (db : DB) (cid : Nat) : List SnapshotRow :=
  db.snapshots.filter (fun s => s.contextId == cid)

/-! ## ProjectManager -/

/-- JavaScript `x || null` for an optional string (empty string is falsy). -/
def optTruthyStr : Option String → Option String
  | some s => if s == "" then none else some s
  | none => none

/-- JavaScript `x || null` for an optional JSON value. -/
def optTruthyJ (v : Option Jval) : Option Jval :=
  if jTruthy v then v else none

/-- Embeds `ProjectManager.getProjectContext`: the active context of a
(user, project) pair, if any. -/
def getProjectContext (db : DB) (userId projectName : String) : Option ContextRow :=
  (db.contexts.filter
    (fun c => c.userId == userId && c.projectName == projectName && c.isActive)).head?

/-- The in-place context update performed by the `UPDATE project_contexts`
statement of `createOrUpdateProjectContext`. -/
def updateCtxRow (now : Nat) (ti : TechInfo) (hash : String) (desc : Option Jval)
    (c : ContextRow) : ContextRow :=
  { c with
    description := desc
    techStack := ti.tech_stack
    projectType := ti.project_type
    languages := ti.programming_languages
    buildSystem := optTruthyStr ti.build_system
    testFramework := optTruthyStr ti.test_framework
    lastModifiedAt := now
    isActive := true
    contextHash := hash }

/-- Embeds `ProjectManager.createOrUpdateProjectContext`. The method runs
in its own `db.transaction` on a separate pool connection, so its writes
commit independently of any enclosing save; the returned state is the
committed one. -/
def createOrUpdateProjectContext (prim : Prim) (db : DB) (userId projectName : String)
    (files : List FileInput) (description : Option Jval) : ContextRow × DB :=
  let techInfo := detectTechStack prim files
  let contextHash := calculateContextHash prim.sha256hex techInfo.tech_stack
  let desc := optTruthyJ description
  let isMine := fun (c : ContextRow) => c.userId == userId && c.projectName == projectName
  match (db.contexts.filter isMine).head? with
  | some c =>
    let updated := updateCtxRow db.clock techInfo contextHash desc c
    (updated,
     { db with
        contexts := db.contexts.map
          (fun c' => if isMine c' then updateCtxRow db.clock techInfo contextHash desc c' else c')
        clock := db.clock + 1 })
  | none =>
    let row : ContextRow :=
      { id := db.nextId
        userId := userId
        projectName := projectName
        description := desc
        techStack := techInfo.tech_stack
        projectType := techInfo.project_type
        languages := techInfo.programming_languages
        buildSystem := optTruthyStr techInfo.build_system
        testFramework := optTruthyStr techInfo.test_framework
        contextHash := contextHash
        isActive := true
        lastModifiedAt := db.clock }
    (row,
     { db with
        contexts := db.contexts ++ [row]
        nextId := db.nextId + 1
        clock := db.clock + 1 })

/-- The file-tree entry recorded for one file of a snapshot. -/
def fileTreeEntry (clock : Nat) (f : FileInput) : Jval :=
  let ext := extOf f.path
  .obj
    [("size", .num f.content.length),
     ("type", .str (if ext == "" then "unknown" else ext)),
     ("last_modified", .str (toString clock))]

/-- The fixed recognized set of key-file paths in `createSnapshot`. -/
def keyFilePaths : List String :=
  ["package.json", "tsconfig.json", "requirements.txt", "Cargo.toml", "go.mod",
   "README.md", ".gitignore", "Dockerfile", "docker-compose.yml"]

/-- Key-file selection and truncation rule of `createSnapshot`. -/
def keyFileOf (f : FileInput) : Option KeyFile :=
  let ext := extOf f.path
  let isKeyFile := keyFilePaths.contains f.path
  if isKeyFile || ext == "md" || (ext == "json" && strIncludes f.path "config") then
    some
      { path := f.path
        type := if ext == "" then "unknown" else ext
        content :=
          if f.content.length > 10000 then (f.content.take 10000) ++ "..." else f.content }
  else none

/-- The dependency extraction loop of `createSnapshot` over the file set. -/
def snapshotDeps (prim : Prim) (files : List FileInput) : Jval × Jval :=
  files.foldl
    (fun acc f =>
      if f.path == "package.json" then
        match prim.jsonParse f.content with
        | some packageData =>
          let d := jGet packageData "dependencies"
          let dd := jGet packageData "devDependencies"
          (if jTruthy d then d.getD (.obj []) else .obj [],
           if jTruthy dd then dd.getD (.obj []) else .obj [])
        | none => acc
      else acc)
    (.obj [], .obj [])

/-- Embeds `ProjectManager.createSnapshot`. The method runs its reads and
its insert through `this.db.query` (the pool, not the enclosing
transaction client), so the snapshot row commits immediately. -/
def createSnapshot (prim : Prim) (db : DB) (projectContextId : Nat)
    (files : List FileInput) (snapshotReason : String) : SnapshotRow × DB :=
  let nextVersion := listMax ((snapshotsOf db projectContextId).map (fun s => s.version)) + 1
  let fileTree := files.foldl (fun t f => setKey t f.path (fileTreeEntry db.clock f)) []
  let keyFiles := files.filterMap keyFileOf
  let (dependencies, devDependencies) := snapshotDeps prim files
  let row : SnapshotRow :=
    { id := db.nextId
      contextId := projectContextId
      version := nextVersion
      fileTree := fileTree
      keyFiles := keyFiles
      dependencies := dependencies
      devDependencies := devDependencies
      reason := snapshotReason
      createdBy := "auto" }
  (row,
   { db with
      snapshots := db.snapshots ++ [row]
      nextId := db.nextId + 1
      clock := db.clock + 1 })

/-! ## SessionManager inputs and outputs -/

/-- One conversation turn of a save request. -/
structure Msg where
  role : String
  content : String
deriving DecidableEq

/-- Input of `saveSession` (`SaveContextInput`). -/
structure SaveInput where
  session_name : String
  project_name : String
  files : List FileInput
  conversation : List Msg
  metadata : List (String × Jval)

/-- Output of `saveSession` (`SaveContextOutput`). -/
structure SaveOutput where
  session_id : Nat
  status : String
  message : String
  version : Nat
  project_context_id : Option Nat
deriving DecidableEq

/-- Input of `resumeSession` (`ResumeContextInput`). -/
structure ResumeInput where
  session_name : String
  project_name : Option String
  file_path : Option String

/-- One bounded candidate (`AmbiguousMatch`). -/
structure AmbMatch where
  session_id : Nat
  session_name : String
  project_name : String
  version : Nat
  files : List String
  created_at : Nat
  metadata : List (String × Jval)

/-- A fully hydrated session (`ResumeContextOutput`); metadata values of
`none` model JavaScript `undefined`. -/
structure FullSession where
  session_id : Nat
  session_name : String
  project_name : String
  version : Nat
  files : List (String × String)
  conversation : List (String × String)
  metadata : List (String × Option Jval)
  summaries : List (String × String)

/-- The three observable outcomes of `resumeSession`. -/
inductive ResumeResult where
  | err (msg : String)
  | matches (ms : List AmbMatch)
  | full (out : FullSession)

/-- Input of `listSessions` (`ListContextsInput`). -/
structure ListInput where
  project_name : Option String
  file_path : Option String
  limit : Option Nat
  offset : Option Nat

/-- One row of a session listing. -/
structure ListEntry where
  session_id : Nat
  session_name : String
  project_name : String
  version : Nat
  files : List String
  created_at : Nat
  updated_at : Nat

/-- Output of `listSessions` (`ListContextsOutput`). -/
structure ListOutput where
  sessions : List ListEntry
  total : Nat
  limit : Nat
  offset : Nat

/-! ## Pretty JSON (`JSON.stringify(value, null, 2)`) -/

theorem sizeOf_snd_lt_of_mem {l : List (String × Jval)} {e : String × Jval}
    (h : e ∈ l) : sizeOf e.2 < sizeOf l := by
  have h1 := List.sizeOf_lt_of_mem h
  obtain ⟨a, b⟩ := e
  simp only [Prod.mk.sizeOf_spec] at h1
  simp only []
  omega

/-- Embeds `JSON.stringify(v, null, 2)`: two-space indented rendering, keys
in object insertion order. -/
def jstrPretty (ind : String) : Jval → String
  | .str s => jsonQuote s
  | .num n => toString n
  | .bool b => cond b "true" "false"
  | .null => "null"
  | .arr [] => "[]"
  | .arr xs =>
      "[\n" ++
        joinSep ",\n" (xs.attach.map (fun x => ind ++ "  " ++ jstrPretty (ind ++ "  ") x.1)) ++
        "\n" ++ ind ++ "]"
  | .obj [] => "\x7b\x7d"
  | .obj fs =>
      "\x7b\n" ++
        joinSep ",\n"
          (fs.attach.map
            (fun e => ind ++ "  " ++ jsonQuote e.1.1 ++ ": " ++ jstrPretty (ind ++ "  ") e.1.2)) ++
        "\n" ++ ind ++ "\x7d"
termination_by v => sizeOf v
decreasing_by
  · have := List.sizeOf_lt_of_mem x.2
    simp only [Jval.arr.sizeOf_spec]
    omega
  · have := sizeOf_snd_lt_of_mem e.2
    simp only [Jval.obj.sizeOf_spec]
    omega

/-! ## SessionManager.createSyntheticFile -/

/-- The conversation section of the synthetic file: the most recent 10
turns (`input.conversation.slice(-10)`), rendered as markdown headers. -/
def conversationSectionOf (conversation : List Msg) : String :=
  let recentMessages := if conversation.length > 0 then takeLast 10 conversation else []
  if recentMessages.length > 0 then
    joinSep "\n\n"
      (recentMessages.map (fun msg => "### " ++ upperStr msg.role ++ "\n" ++ msg.content))
  else "No conversation captured."

/-- The metadata section of the synthetic file:
`JSON.stringify(input.metadata, null, 2)` when non-empty. -/
def metadataSectionOf (metadata : List (String × Jval)) : String :=
  if metadata.length > 0 then jstrPretty "" (.obj metadata) else "None"

/-- Embeds `SessionManager.createSyntheticFile`; `now` models
`new Date().toISOString()`. -/
def createSyntheticFile (now : String) (input : SaveInput) : FileInput :=
  { path := "CONVERSATION_SUMMARY.md"
    content :=
      joinSep "\n"
        ["# Context Engine Snapshot",
         "",
         "- Session: " ++ input.session_name,
         "- Project: " ++ input.project_name,
         "- Generated: " ++ now,
         "",
         "## Metadata",
         metadataSectionOf input.metadata,
         "",
         "## Conversation",
         conversationSectionOf input.conversation,
         ""] }

/-! ## SessionManager.saveSession -/

/-- The metadata object stored with a session row:
`JSON.stringify({...input.metadata, project_context_id, tech_stack_detected,
snapshot_reason, snapshot_id, synthetic_files_added})` in parsed form. A
`project_context_id` of `undefined` (no project context) is dropped by
`JSON.stringify`; `snapshot_id` of `null` is kept as JSON null. -/
def storedSessionMetadata (callerMetadata : List (String × Jval))
    (projectContext : Option ContextRow) (snapshotReason : String)
    (snapshotId : Option Nat) (filesWereSynthetic : Bool) : List (String × Jval) :=
  let m1 :=
    match projectContext with
    | some c => setKey callerMetadata "project_context_id" (.num c.id)
    | none => delKey callerMetadata "project_context_id"
  let m2 := setKey m1 "tech_stack_detected" (.bool projectContext.isSome)
  let m3 := setKey m2 "snapshot_reason" (.str snapshotReason)
  let m4 :=
    setKey m3 "snapshot_id"
      (match snapshotId with | some i => .num i | none => .null)
  setKey m4 "synthetic_files_added" (.bool filesWereSynthetic)

/-- Step 1 of `saveSession` (create or update project context, create
snapshot). These writes go through `this.projectManager`, which uses its
own transaction and pool queries on connections distinct from the
enclosing transaction client, so they are committed immediately.
Returns (project context, snapshot reason, snapshot id, committed state). -/
def saveStep1 (prim : Prim) (input : SaveInput) (userId : Option String)
    (normalizedFiles : List FileInput) (db : DB) :
    Option ContextRow × String × Option Nat × DB :=
  match userId with
  | none => (none, "auto", none, db)
  | some u =>
    if input.project_name == "" then (none, "auto", none, db)
    else
      let existingContext := getProjectContext db u input.project_name
      let currentTechInfo := detectTechStack prim normalizedFiles
      let currentContextHash := calculateContextHash prim.sha256hex currentTechInfo.tech_stack
      let snapshotReason :=
        match existingContext with
        | some c => if !(c.contextHash == currentContextHash) then "tech-change" else "auto"
        | none => "auto"
      let pc := createOrUpdateProjectContext prim db u input.project_name normalizedFiles
        (alookup input.metadata "description")
      let snap := createSnapshot prim pc.2 pc.1.id normalizedFiles snapshotReason
      (some pc.1, snapshotReason, some snap.1.id, snap.2)

/-- The file list actually persisted: the list given by the caller, or one
synthetic markdown file when the list is empty (`new Date().toISOString()`
is modelled by the logical clock). -/
def normalizedFilesOf (db : DB) (input : SaveInput) : List FileInput :=
  if input.files.isEmpty then [createSyntheticFile (toString db.clock) input]
  else input.files

/-- The file rows inserted by step 4 of `saveSession`. -/
def fileRowsOf (base sid : Nat) (nf : List FileInput) : List FileRow :=
  nf.mapIdx (fun i f =>
    { id := base + 1 + i
      sessionId := sid
      path := f.path
      content := f.content
      contentHash := calculateContentHash f.content
      lineCount := (splitNl f.content).length })

/-- The conversation rows inserted by step 5 of `saveSession`
(`created_at` is `NOW() - INTERVAL (length - index) seconds`). -/
def convRowsOf (base sid clock nfLen : Nat) (conv : List Msg) : List ConvRow :=
  conv.mapIdx (fun i m =>
    { id := base + 1 + nfLen + i
      sessionId := sid
      role := m.role
      content := m.content
      createdAt := (clock : Int) * 1000000 - ((conv.length - i : Nat) : Int) })

/-- Steps 2 to 5 of `saveSession`: version lookup, session insert, file
inserts, conversation inserts. These inserts run on the transaction client
and commit only if the whole body succeeds; on any error the transaction
rolls back and the committed state stays `db2` (the state after the step-1
writes, which used separate connections).

Store failures are modelled after the `schema.ts` constraints:
`sessions_name_not_empty` and `sessions_project_name_not_empty` reject the
session insert; `files_session_path_unique` rejects a duplicate file path;
and, because the conversation insert omits `message_order` so every row
gets the default 0, `conversations_session_order_unique` fires whenever a
second conversation row is inserted, and
`conversations_content_not_empty` fires on blank message content.
`failBeforeConversation` injects a forced failure after the file inserts
and before the conversation inserts. -/
def saveFinish (input : SaveInput) (u : String) (nf : List FileInput)
    (filesWereSynthetic : Bool) (projectContext : Option ContextRow)
    (snapshotReason : String) (snapshotId : Option Nat)
    (failBeforeConversation : Bool) (db2 : DB) : Except String SaveOutput × DB :=
  let currentVersion := listMax (versionsOf u input.session_name input.project_name db2)
  let newVersion := currentVersion + 1
  if strTrim input.session_name == "" || strTrim input.project_name == "" then
    (.error "new row violates check constraint on sessions", db2)
  else if !(nodupStr (nf.map (fun f => f.path))) then
    (.error "duplicate key value violates files_session_path_unique", db2)
  else if failBeforeConversation then
    (.error "forced failure before conversation insert", db2)
  else if 2 ≤ input.conversation.length then
    (.error "duplicate key value violates conversations_session_order_unique", db2)
  else if input.conversation.any (fun m => strTrim m.content == "") then
    (.error "new row violates check constraint conversations_content_not_empty", db2)
  else
    let sessionId := db2.nextId
    let sessionRow : SessionRow :=
      { id := sessionId
        userId := u
        name := input.session_name
        projectName := input.project_name
        version := newVersion
        metadata :=
          storedSessionMetadata input.metadata projectContext snapshotReason snapshotId
            filesWereSynthetic
        snapshotId := snapshotId
        createdAt := db2.clock
        updatedAt := db2.clock }
    let db3 : DB :=
      { db2 with
        sessions := db2.sessions ++ [sessionRow]
        files := db2.files ++ fileRowsOf db2.nextId sessionId nf
        convs :=
          db2.convs ++ convRowsOf db2.nextId sessionId db2.clock nf.length input.conversation
        nextId := db2.nextId + 1 + nf.length + input.conversation.length
        clock := db2.clock + 1 }
    (.ok
      { session_id := sessionId
        status := if 0 < currentVersion then "versioned" else "saved"
        message :=
          if 0 < currentVersion then
            "Session saved as " ++ input.session_name ++ "-" ++ toString newVersion
          else "Session saved as " ++ input.session_name
        version := newVersion
        project_context_id := projectContext.map (fun c => c.id) },
     db3)

/-- Embeds `SessionManager.saveSession`: file normalization, step 1
(project context and snapshot, committed immediately on separate
connections), the missing-user check, then steps 2 to 5 inside the
enclosing transaction. -/
def saveSession (prim : Prim) (failBeforeConversation : Bool) (input : SaveInput)
    (userId : Option String) (db : DB) : Except String SaveOutput × DB :=
  let nf := normalizedFilesOf db input
  let s1 := saveStep1 prim input userId nf db
  match userId with
  | none => (.error "User authentication required for session saving", s1.2.2.2)
  | some u =>
    saveFinish input u nf input.files.isEmpty s1.1 s1.2.1 s1.2.2.1 failBeforeConversation
      s1.2.2.2

/-! ## SessionManager read paths -/

/-- Sort by `version DESC` (`ORDER BY version DESC`). -/
def sortSessionsByVersionDesc (l : List SessionRow) : List SessionRow :=
  List.insertionSort (fun a b => b.version ≤ a.version) l

/-- Sort by `updated_at DESC` (`ORDER BY s.updated_at DESC`). -/
def sortSessionsByUpdatedDesc (l : List SessionRow) : List SessionRow :=
  List.insertionSort (fun a b => b.updatedAt ≤ a.updatedAt) l

/-- Duplicate removal keeping first occurrences. -/
def dedupStrs (l : List String) : List String :=
  l.foldl (fun acc x => if acc.contains x then acc else acc ++ [x]) []

/-- `ARRAY_AGG(DISTINCT f.path) FILTER (WHERE f.path IS NOT NULL)` for one
session under a `LEFT JOIN files`: `none` models the SQL NULL produced
when the session has no file rows. -/
def fileAggOf (db : DB) (sid : Nat) : Option (List String) :=
  let paths := (filesOf db sid).map (fun f => f.path)
  if paths.isEmpty then none else some (sortStrings (dedupStrs paths))

/-- Embeds `SessionManager.retrieveFullSession`. The session lookup runs
first and a missing session raises `Session not found`. When a session is
found, the method goes on to run the summaries query
`SELECT fs.file_id, s.summary FROM summaries s LEFT JOIN files fs ON
s.file_id = fs.id WHERE s.session_id = $1`; both `summaries.file_id` and
`files.file_id` are columns that do not exist in any table created by
`schema.ts` or the migrations of this repository, so the store rejects the
query and the method always throws after a session is found
(`docs/known-limitations.md` records this failing resume path). -/
def retrieveFullSession (db : DB) (sessionId : Nat) (_filePath : Option String) :
    Except String FullSession :=
  match (db.sessions.filter (fun s => s.id == sessionId)).head? with
  | none => .error ("Session not found: " ++ toString sessionId)
  | some _ => .error "column fs.file_id does not exist"

/-- The row filter of the fuzzy search query:
`WHERE s.user_id = $1 AND s.name ILIKE $2 [AND s.project_name ILIKE $3]`. -/
def fuzzyRows (db : DB) (input : ResumeInput) (userId : String) : List SessionRow :=
  db.sessions.filter (fun s =>
    s.userId == userId && ilikeContains s.name input.session_name &&
    (match input.project_name with
     | some p => if p == "" then true else ilikeContains s.projectName p
     | none => true))

/-- The candidate built from one fuzzy-matched row, carrying its
aggregated file paths. -/
def fuzzyMatchOfRow (db : DB) (s : SessionRow) : AmbMatch :=
  { session_id := s.id
    session_name := s.name
    project_name := s.projectName
    version := s.version
    files := ((fileAggOf db s.id).getD []).filter (fun p => !(p == ""))
    created_at := s.createdAt
    metadata := s.metadata }

/-- Embeds `SessionManager.fuzzySearchSessions`: a case-insensitive
substring search on session name, optionally narrowed by a project-name
substring, ordered by `updated_at DESC`, capped at 10 rows. A returned
session without file rows makes the result mapping dereference a SQL NULL
(`result.files.filter(Boolean)`), which throws. -/
def fuzzySearchSessions (db : DB) (input : ResumeInput) (userId : String) :
    Except String (List AmbMatch) :=
  let limited := (sortSessionsByUpdatedDesc (fuzzyRows db input userId)).take 10
  if limited.any (fun s => (fileAggOf db s.id).isNone) then
    .error "TypeError: null files aggregate"
  else
    .ok (limited.map (fuzzyMatchOfRow db))

/-- JavaScript falsiness of the optional project filter (`undefined` or the
empty string). -/
def projFalsy (input : ResumeInput) : Bool :=
  match input.project_name with
  | none => true
  | some p => p == ""

/-- The exact-match query of `resumeSession`:
`WHERE user_id = $1 AND name = $2 AND ($3::text IS NULL OR project_name = $3)
ORDER BY version DESC`. -/
def exactMatches (db : DB) (input : ResumeInput) (userId : String) : List SessionRow :=
  sortSessionsByVersionDesc (db.sessions.filter (fun s =>
    s.userId == userId && s.name == input.session_name &&
    (match input.project_name with
     | some p => s.projectName == p
     | none => true)))

/-- The bounded candidate built from a bare session row in the ambiguous
branch of `resumeSession` (file bodies are not hydrated; `files` is left
empty). -/
def ambMatchOfRow (s : SessionRow) : AmbMatch :=
  { session_id := s.id
    session_name := s.name
    project_name := s.projectName
    version := s.version
    files := []
    created_at := s.createdAt
    metadata := s.metadata }

/-- Embeds `SessionManager.resumeSession`: the exact / ambiguous / fuzzy
decision ladder. -/
def resumeSession (db : DB) (input : ResumeInput) (userId : Option String) : ResumeResult :=
  match userId with
  | none => .err "User authentication required for session access"
  | some u =>
    let ms := exactMatches db input u
    if ms.isEmpty then
      match fuzzySearchSessions db input u with
      | .ok found => .matches found
      | .error e => .err e
    else if 1 < ms.length && projFalsy input then
      .matches (ms.map ambMatchOfRow)
    else
      match ms.head? with
      | none => .err "Session not found"
      | some s =>
        match retrieveFullSession db s.id input.file_path with
        | .ok out => .full out
        | .error e => .err e

/-- Embeds `SessionManager.listSessions`: user-scoped listing with
optional project-name and file-path substring filters, ordered by
`updated_at DESC`, windowed by OFFSET/LIMIT (SQL treats a NULL limit as no
limit and a NULL offset as 0). A windowed session without file rows makes
the result mapping dereference a SQL NULL, which throws. -/
def listSessions (db : DB) (input : ListInput) (userId : Option String) :
    Except String ListOutput :=
  match userId with
  | none => .error "User authentication required for session listing"
  | some u =>
    let pred := fun (s : SessionRow) =>
      s.userId == u &&
      (match input.project_name with
       | some p => if p == "" then true else ilikeContains s.projectName p
       | none => true) &&
      (match input.file_path with
       | some fp =>
         if fp == "" then true
         else db.files.any (fun f => f.sessionId == s.id && ilikeContains f.path fp)
       | none => true)
    let rows := db.sessions.filter pred
    let sorted := sortSessionsByUpdatedDesc rows
    let windowed :=
      match input.limit with
      | some l => (sorted.drop (input.offset.getD 0)).take l
      | none => sorted.drop (input.offset.getD 0)
    let total := rows.length
    if windowed.any (fun s => (fileAggOf db s.id).isNone) then
      .error "TypeError: null files aggregate"
    else
      .ok
        { sessions := windowed.map (fun s =>
            { session_id := s.id
              session_name := s.name
              project_name := s.projectName
              version := s.version
              files := ((fileAggOf db s.id).getD []).filter (fun p => !(p == ""))
              created_at := s.createdAt
              updated_at := s.updatedAt })
          total := total
          limit := match input.limit with | some l => if l == 0 then 20 else l | none => 20
          offset := input.offset.getD 0 }

/-- The row filter of the listing query, named for reuse in proofs
(definitionally the predicate inside `listSessions`). -/
def listPred (db : DB) (input : ListInput) (u : String) (s : SessionRow) : Bool :=
  s.userId == u &&
  (match input.project_name with
   | some p => if p == "" then true else ilikeContains s.projectName p
   | none => true) &&
  (match input.file_path with
   | some fp =>
     if fp == "" then true
     else db.files.any (fun f => f.sessionId == s.id && ilikeContains f.path fp)
   | none => true)

/-- The OFFSET/LIMIT window of the listing query over the sorted rows. -/
def listWindow (db : DB) (input : ListInput) (u : String) : List SessionRow :=
  match input.limit with
  | some l =>
    ((sortSessionsByUpdatedDesc (db.sessions.filter (listPred db input u))).drop
      (input.offset.getD 0)).take l
  | none =>
    (sortSessionsByUpdatedDesc (db.sessions.filter (listPred db input u))).drop
      (input.offset.getD 0)

/-- One listing row built from a session row. -/
def listEntryOf (db : DB) (s : SessionRow) : ListEntry :=
  { session_id := s.id
    session_name := s.name
    project_name := s.projectName
    version := s.version
    files := ((fileAggOf db s.id).getD []).filter (fun p => !(p == ""))
    created_at := s.createdAt
    updated_at := s.updatedAt }

/-! ## Claim-support definitions -/

/-- Substring containment at the character level (used to state that a
synthesized file embeds the conversation and metadata). -/
def strInfix (needle hay : String) : Prop :=
  ∃ a b : List Char, hay.data = a ++ needle.data ++ b

/-- A file whose only detection signal is TypeScript/JavaScript source:
a ts/tsx/js/jsx extension and none of the framework content markers. -/
def tsJsOnlyFile (f : FileInput) : Bool :=
  tsFamilyExt (extOf f.path) &&
  !(reactMarks f.content) && !(vueMarks f.content) && !(angularMarks f.content)

/-- One call of a save sequence. -/
structure SaveCall where
  userId : Option String
  input : SaveInput
  fail : Bool

/-- A call that commits a session row: an authenticated caller, no
injected failure, and inputs the store constraints accept (non-blank
names, duplicate-free file paths, at most one conversation row because the
inserts leave `message_order` at its default, non-blank message
contents). -/
def wfProp (c : SaveCall) : Prop :=
  c.userId.isSome = true ∧ c.fail = false ∧
  strTrim c.input.session_name ≠ "" ∧ strTrim c.input.project_name ≠ "" ∧
  (c.input.files.isEmpty = true ∨
    nodupStr (c.input.files.map (fun f => f.path)) = true) ∧
  c.input.conversation.length ≤ 1 ∧
  ∀ m ∈ c.input.conversation, strTrim m.content ≠ ""

instance (c : SaveCall) : Decidable (wfProp c) := by
  unfold wfProp
  infer_instance

/-- Boolean form of `wfProp`. -/
def wfCall (c : SaveCall) : Bool :=
  decide (wfProp c)

/-- Whether a call saves under the key (u, n, p). -/
def keyMatches (u n p : String) (c : SaveCall) : Bool :=
  c.userId == some u && c.input.session_name == n && c.input.project_name == p

/-- Sequential execution of a list of save calls. -/
def runSaves (prim : Prim) (calls : List SaveCall) (db : DB) : DB :=
  calls.foldl (fun d c => (saveSession prim c.fail c.input c.userId d).2) db

/-- Number of committed saves under the key (u, n, p) in a call list. -/
def countKey (u n p : String) (calls : List SaveCall) : Nat :=
  calls.countP (fun c => wfCall c && keyMatches u n p c)

/-- An extension of `db` by rows belonging to other users: foreign
sessions are owned by someone other than `u`, and foreign file rows hang
off foreign sessions (fresh primary keys), never off a session already in
`db`. -/
structure ForeignExt (u : String) (db db' : DB) : Prop where
  sessions : ∃ extra, db'.sessions = db.sessions ++ extra ∧ ∀ s ∈ extra, s.userId ≠ u
  files : ∃ extra, db'.files = db.files ++ extra ∧
    ∀ f ∈ extra, ∀ s ∈ db.sessions, f.sessionId ≠ s.id
  convs : ∃ extra, db'.convs = db.convs ++ extra
  summaries : ∃ extra, db'.summaries = db.summaries ++ extra
  contexts : ∃ extra, db'.contexts = db.contexts ++ extra
  snapshots : ∃ extra, db'.snapshots = db.snapshots ++ extra

/-! ## Concrete instances used by counterexamples and witnesses -/

/-- A concrete digest/parse oracle (the identity digest; a parser that
fails on everything, as `JSON.parse` does on non-JSON content). -/
def prim0 : Prim :=
  { sha256hex := fun s => s, jsonParse := fun _ => none }

/-- A concrete save input: one file, one message, one metadata entry. -/
def inp0 : SaveInput :=
  { session_name := "bug-fix"
    project_name := "proj-a"
    files := [{ path := "a.ts", content := "let x = 1" }]
    conversation := [{ role := "user", content := "hello" }]
    metadata := [("tags", Jval.str "demo")] }

/-- The manifest content used by the detector counterexample. -/
def pkgJson9 : String := "\x7b\"dependencies\":\x7b\"express\":\"^4\"\x7d\x7d"

/-- A parse oracle agreeing with `JSON.parse` on `pkgJson9`. -/
def prim9 : Prim :=
  { sha256hex := fun s => s
    jsonParse := fun s =>
      if s == pkgJson9 then
        some (.obj [("dependencies", .obj [("express", .str "^4")])])
      else none }

/-- A dependency manifest declaring a server framework (express). -/
def pkgFile9 : FileInput := { path := "package.json", content := pkgJson9 }

/-- A TypeScript source importing React. -/
def tsxFile9 : FileInput := { path := "app.tsx", content := "import React from \"react\"" }

/-- A bare session row for read-path tests. -/
def sRow (id : Nat) (u n p : String) (v upd : Nat) : SessionRow :=
  { id := id, userId := u, name := n, projectName := p, version := v,
    metadata := [], snapshotId := none, createdAt := upd, updatedAt := upd }

/-- A bare file row for read-path tests. -/
def fRow (id sid : Nat) (path : String) : FileRow :=
  { id := id, sessionId := sid, path := path, content := "x",
    contentHash := calculateContentHash "x", lineCount := 1 }

/-- Two sessions named `bug-fix` under different projects of user u1,
each with one file. -/
def dbResume : DB :=
  { sessions := [sRow 1 "u1" "bug-fix" "proj-a" 1 5, sRow 2 "u1" "bug-fix" "proj-b" 1 6]
    files := [fRow 10 1 "a.ts", fRow 11 2 "b.ts"]
    convs := []
    summaries := []
    contexts := []
    snapshots := []
    nextId := 20
    clock := 9 }

/-- `dbResume` extended by a row set of a second user u2 (same session and
project names, fresh ids). -/
def dbResumeB : DB :=
  { dbResume with
    sessions := dbResume.sessions ++ [sRow 3 "u2" "bug-fix" "proj-a" 1 7]
    files := dbResume.files ++ [fRow 12 3 "a.ts"] }

/-! ## General lemmas -/

theorem toInt32_bounds (z : Int) :
    -2147483648 ≤ toInt32 z ∧ toInt32 z < 2147483648 := by
  unfold toInt32
  have h0 : (0 : Int) ≤ z % 4294967296 := Int.emod_nonneg z (by norm_num)
  have h1 : z % 4294967296 < 4294967296 := Int.emod_lt_of_pos z (by norm_num)
  split <;> omega

theorem contentHashLoop_bounds (cs : List Char) (h : Int)
    (hh : -2147483648 ≤ h ∧ h < 2147483648) :
    -2147483648 ≤ contentHashLoop h cs ∧ contentHashLoop h cs < 2147483648 := by
  induction cs generalizing h with
  | nil => exact hh
  | cons c cs ih => exact ih _ (toInt32_bounds _)

theorem padStart_length (s : String) (w : Nat) (c : Char) (h : s.length ≤ w) :
    (padStart s w c).length = w := by
  unfold padStart
  split
  · rw [String.length_append]
    have : (String.mk (List.replicate (w - s.length) c)).length = w - s.length := by
      simp
    omega
  · omega

theorem calculateContentHash_length (content : String) :
    (calculateContentHash content).length = 64 := by
  unfold calculateContentHash
  apply padStart_length
  have hb := contentHashLoop_bounds content.data 0 (by norm_num)
  have habs : (contentHashLoop 0 content.data).natAbs < 4294967296 := by omega
  have hlen : (Nat.toDigits 16 (contentHashLoop 0 content.data).natAbs).length ≤ 8 := by
    have := Nat.toDigitsCore_length 16 (by norm_num)
      ((contentHashLoop 0 content.data).natAbs + 1)
      (contentHashLoop 0 content.data).natAbs 8 (by norm_num at habs ⊢; omega) (by norm_num)
    simpa [Nat.toDigits] using this
  have : (natToHex (contentHashLoop 0 content.data).natAbs).length ≤ 8 := by
    simpa [natToHex, String.length] using hlen
  omega

/-! ## C7 -/

/-- C7 counterexample: `calculateContentHash` is not a cryptographic,
collision-resistant digest — the distinct contents "Aa" and "BB" collide
(it is a 32-bit rolling hash). -/
theorem C7_counterexample_collision :
    calculateContentHash "Aa" = calculateContentHash "BB" ∧ ("Aa" : String) ≠ "BB" := by
  exact ⟨rfl, by decide⟩

/-- C7 (amended): `hashContent` (`calculateContentHash`) is deterministic
and always returns a fixed-length digest of 64 hexadecimal characters, but
it is a 32-bit rolling hash, not a cryptographic digest, and it admits
easy collisions. -/
theorem C7_amended_deterministic_fixed_length (content : String) :
    calculateContentHash content = calculateContentHash content ∧
    (calculateContentHash content).length = 64 :=
  ⟨rfl, calculateContentHash_length content⟩

/-! ## C6 -/

theorem alookup_perm {α : Type} {l l' : List (String × α)} (h : l.Perm l') (k : String) :
    (l.map Prod.fst).Nodup → alookup l k = alookup l' k := by
  induction h with
  | nil => intro _; rfl
  | cons x h ih =>
    intro nd
    obtain ⟨a, b⟩ := x
    by_cases hak : a == k <;> simp [alookup, hak]
    exact ih (by simpa using nd.of_cons)
  | swap x y l =>
    intro nd
    obtain ⟨a, b⟩ := x
    obtain ⟨c, d⟩ := y
    have hne : c ≠ a := by
      simp only [List.map_cons, List.nodup_cons, List.mem_cons] at nd
      exact fun hca => nd.1 (Or.inl hca)
    by_cases hck : c == k
    · have hak : (a == k) = false := by
        have hck2 : c = k := by simpa using hck
        have : a ≠ k := fun hak => hne (hck2.trans hak.symm)
        simpa using this
      simp [alookup, hck, hak]
    · by_cases hak : a == k <;> simp [alookup, hck, hak]
  | trans h1 h2 ih1 ih2 =>
    intro nd
    refine (ih1 nd).trans (ih2 ?_)
    have := (h1.map Prod.fst).nodup_iff
    exact this.mp nd

theorem selEntries_congr {F F' : List (String × Jval)}
    (h : ∀ k, alookup F k = alookup F' k) (P : List String) :
    selEntries P F = selEntries P F' := by
  induction P with
  | nil => rfl
  | cons k P ih =>
    simp only [selEntries, List.filterMap_cons] at ih ⊢
    rw [h k]
    cases alookup F' k <;> simp [ih]

theorem sortStrings_perm_eq {l l' : List String} (h : l.Perm l') :
    sortStrings l = sortStrings l' := by
  refine List.eq_of_perm_of_sorted ?_ (List.sorted_insertionSort _ l)
    (List.sorted_insertionSort _ l')
  exact (List.perm_insertionSort _ l).trans (h.trans (List.perm_insertionSort _ l').symm)

/-- C6: `fingerprintFacts` (`calculateContextHash`) is deterministic, and
reordering the keys of a facts record (a permutation of its duplicate-free
key/value entries) never changes the digest, because the serialization
that gets digested is ordered by the sorted key list. Holds for every
digest function modelling `crypto.createHash("sha256")`. -/
theorem C6_fingerprint_deterministic_key_order_invariant
    (sha256hex : String → String) (F F' : List (String × Jval))
    (hperm : F'.Perm F) (hnd : (F.map Prod.fst).Nodup) :
    calculateContextHash sha256hex F = calculateContextHash sha256hex F ∧
    calculateContextHash sha256hex F' = calculateContextHash sha256hex F := by
  refine ⟨rfl, ?_⟩
  unfold calculateContextHash
  have hP : sortStrings (F'.map Prod.fst) = sortStrings (F.map Prod.fst) :=
    sortStrings_perm_eq (hperm.map Prod.fst)
  have hl : ∀ k, alookup F' k = alookup F k := fun k =>
    alookup_perm hperm k ((hperm.map Prod.fst).nodup_iff.mpr hnd)
  rw [hP, jstr_obj, jstr_obj, selEntries_congr hl]

/-- C6 witness: the theorem applied to a concrete two-entry facts record
and its key-swapped form. -/
theorem C6_witness :
    calculateContextHash (fun s => s) [("b", Jval.bool true), ("a", Jval.num 1)] =
      calculateContextHash (fun s => s) [("a", Jval.num 1), ("b", Jval.bool true)] :=
  (C6_fingerprint_deterministic_key_order_invariant (fun s => s)
    [("a", Jval.num 1), ("b", Jval.bool true)]
    [("b", Jval.bool true), ("a", Jval.num 1)]
    (List.Perm.swap _ _ _) (by decide)).2

/-! ## C9 -/

theorem addLang_mem {ls : List String} {x l : String} (h : l ∈ addLang ls x) :
    l ∈ ls ∨ l = x := by
  unfold addLang at h
  split at h
  · exact Or.inl h
  · rcases List.mem_append.mp h with h | h
    · exact Or.inl h
    · exact Or.inr (by simpa using h)

theorem addLang_ne_nil (ls : List String) (x : String) : addLang ls x ≠ [] := by
  unfold addLang
  split
  · intro hnil
    rename_i hc
    rw [hnil] at hc
    simp at hc
  · simp

theorem tsFamilyExt_ne_py {e : String} (h : tsFamilyExt e = true) : (e == "py") = false := by
  simp only [tsFamilyExt, Bool.or_eq_true, beq_iff_eq] at h
  rcases h with ((h | h) | h) | h <;> rw [h] <;> decide

theorem path_beq_false_of_tsFamily {path lit : String}
    (hext : tsFamilyExt (extOf path) = true) (hlit : tsFamilyExt (extOf lit) = false) :
    (path == lit) = false := by
  by_cases hp : path = lit
  · rw [hp] at hext
    rw [hext] at hlit
    cases hlit
  · simpa using hp

theorem detectStep_tsJsOnly (prim : Prim) (st : TechInfo) (f : FileInput)
    (hf : tsJsOnlyFile f = true) (h1 : st.project_type = "other")
    (h2 : ∀ l ∈ st.programming_languages, l = "typescript" ∨ l = "javascript") :
    (detectStep prim st f).project_type = "other" ∧
    (∀ l ∈ (detectStep prim st f).programming_languages,
        l = "typescript" ∨ l = "javascript") ∧
    (detectStep prim st f).programming_languages ≠ [] := by
  have hf' := hf
  simp only [tsJsOnlyFile, Bool.and_eq_true, Bool.not_eq_true'] at hf'
  obtain ⟨⟨⟨hext, hre⟩, hvu⟩, han⟩ := hf'
  have hpy := tsFamilyExt_ne_py hext
  have hpkg : (f.path == "package.json") = false := path_beq_false_of_tsFamily hext (by decide)
  have htsc : (f.path == "tsconfig.json") = false := path_beq_false_of_tsFamily hext (by decide)
  have hreq : (f.path == "requirements.txt") = false := path_beq_false_of_tsFamily hext (by decide)
  have hcar : (f.path == "Cargo.toml") = false := path_beq_false_of_tsFamily hext (by decide)
  have hgo : (f.path == "go.mod") = false := path_beq_false_of_tsFamily hext (by decide)
  by_cases hn : nodeMarks f.content <;>
    simp only [detectStep, hext, hre, hvu, han, hpy, hpkg, htsc, hreq, hcar, hgo, hn,
      if_true, if_false, Bool.false_eq_true, ite_true, ite_false] <;>
    refine ⟨h1, ?_, addLang_ne_nil _ _⟩ <;>
    intro l hl <;>
    rcases addLang_mem hl with h | h
  · exact h2 l h
  · split at h <;> simp [h]
  · exact h2 l h
  · split at h <;> simp [h]

theorem detectLoop_tsJsOnly_aux (prim : Prim) :
    ∀ (files : List FileInput), (∀ f ∈ files, tsJsOnlyFile f = true) →
    ∀ st : TechInfo, st.project_type = "other" →
      (∀ l ∈ st.programming_languages, l = "typescript" ∨ l = "javascript") →
      (files.foldl (detectStep prim) st).project_type = "other" ∧
      (∀ l ∈ (files.foldl (detectStep prim) st).programming_languages,
          l = "typescript" ∨ l = "javascript") ∧
      (files ≠ [] ∨ st.programming_languages ≠ [] →
        (files.foldl (detectStep prim) st).programming_languages ≠ []) := by
  intro files
  induction files with
  | nil =>
    intro _ st h1 h2
    refine ⟨h1, h2, fun h => ?_⟩
    rcases h with h | h
    · exact absurd rfl h
    · exact h
  | cons f rest ih =>
    intro hfs st h1 h2
    have hstep := detectStep_tsJsOnly prim st f (hfs f (by simp)) h1 h2
    have hrest := ih (fun g hg => hfs g (by simp [hg])) (detectStep prim st f)
      hstep.1 hstep.2.1
    exact ⟨hrest.1, hrest.2.1, fun _ => hrest.2.2 (Or.inr hstep.2.2)⟩

/-- C9 counterexample: with the same file set and the same manifest signal
(a `package.json` declaring express), the resulting project type depends
on the order of the input files — the manifest first yields `web-app` (the
React source processed later wins), the manifest last yields
`api-service`. The claim that the same manifest signal yields the same
project type regardless of input order is therefore false. -/
theorem C9_counterexample :
    (detectTechStack prim9 [pkgFile9, tsxFile9]).project_type = "web-app" ∧
    (detectTechStack prim9 [tsxFile9, pkgFile9]).project_type = "api-service" :=
  ⟨rfl, rfl⟩

/-- C9 (amended): project type resolution follows the coded precedence —
a type set by an explicit signal during the file loop (for example a
server-framework dependency in the manifest) is never overridden by the
language-only default, and a non-empty file set whose only signal is
TypeScript/JavaScript source yields `cli-tool`. The type is, however,
order-sensitive when several explicit signals are present: the last
type-setting signal in file order wins (see the counterexample). -/
theorem C9_amended_precedence (prim : Prim) :
    (∀ files, (detectLoop prim files).project_type ≠ "other" →
      (detectTechStack prim files).project_type = (detectLoop prim files).project_type) ∧
    (∀ files, files ≠ [] → (∀ f ∈ files, tsJsOnlyFile f = true) →
      (detectTechStack prim files).project_type = "cli-tool") := by
  constructor
  · intro files h
    have hb : ((detectLoop prim files).project_type == "other") = false := by
      simpa using h
    simp [detectTechStack, hb]
  · intro files hne hfs
    have haux := detectLoop_tsJsOnly_aux prim files hfs detectInit rfl
      (by intro l hl; simp [detectInit] at hl)
    have h1 : (detectLoop prim files).project_type = "other" := haux.1
    have hnil : (detectLoop prim files).programming_languages ≠ [] :=
      haux.2.2 (Or.inl hne)
    have hb : ((detectLoop prim files).project_type == "other") = true := by simp [h1]
    obtain ⟨l, hl⟩ := List.exists_mem_of_ne_nil _ hnil
    have hm : "typescript" ∈ (detectLoop prim files).programming_languages ∨
        "javascript" ∈ (detectLoop prim files).programming_languages := by
      rcases haux.2.1 l hl with h | h
      · exact Or.inl (h ▸ hl)
      · exact Or.inr (h ▸ hl)
    simp [detectTechStack, hb]
    rw [if_pos hm]

/-- C9 amended witness: the precedence theorem applied to a manifest-only
file set (the express manifest yields `api-service`, surviving the
default) and to a TypeScript-only file set (which yields `cli-tool`). -/
theorem C9_amended_witness :
    (detectTechStack prim9 [pkgFile9]).project_type = "api-service" ∧
    (detectTechStack prim9 [{ path := "a.ts", content := "let x = 1" }]).project_type =
      "cli-tool" := by
  constructor
  · have h := (C9_amended_precedence prim9).1 [pkgFile9] (by decide)
    rw [h]
    rfl
  · exact (C9_amended_precedence prim9).2 [{ path := "a.ts", content := "let x = 1" }]
      (by decide) (by decide)

/-! ## Frame lemmas for the save path -/

theorem createOrUpdate_frame (prim : Prim) (db : DB) (u p : String)
    (files : List FileInput) (desc : Option Jval) :
    (createOrUpdateProjectContext prim db u p files desc).2.sessions = db.sessions ∧
    (createOrUpdateProjectContext prim db u p files desc).2.files = db.files ∧
    (createOrUpdateProjectContext prim db u p files desc).2.convs = db.convs ∧
    (createOrUpdateProjectContext prim db u p files desc).2.snapshots = db.snapshots := by
  unfold createOrUpdateProjectContext
  dsimp only
  split <;> exact ⟨rfl, rfl, rfl, rfl⟩

theorem createSnapshot_spec (prim : Prim) (db : DB) (cid : Nat)
    (files : List FileInput) (reason : String) :
    (createSnapshot prim db cid files reason).2.snapshots =
      db.snapshots ++ [(createSnapshot prim db cid files reason).1] ∧
    (createSnapshot prim db cid files reason).1.reason = reason ∧
    (createSnapshot prim db cid files reason).1.contextId = cid ∧
    (createSnapshot prim db cid files reason).2.sessions = db.sessions ∧
    (createSnapshot prim db cid files reason).2.files = db.files ∧
    (createSnapshot prim db cid files reason).2.convs = db.convs ∧
    (createSnapshot prim db cid files reason).2.contexts = db.contexts := by
  exact ⟨rfl, rfl, rfl, rfl, rfl, rfl, rfl⟩

theorem saveFinish_snapshots (input : SaveInput) (u : String) (nf : List FileInput)
    (ws : Bool) (pc : Option ContextRow) (reason : String) (snapId : Option Nat)
    (fail : Bool) (db2 : DB) :
    (saveFinish input u nf ws pc reason snapId fail db2).2.snapshots = db2.snapshots ∧
    (saveFinish input u nf ws pc reason snapId fail db2).2.contexts = db2.contexts := by
  unfold saveFinish
  split_ifs <;> dsimp only <;> exact ⟨rfl, rfl⟩

theorem saveFinish_fail (input : SaveInput) (u : String) (nf : List FileInput)
    (ws : Bool) (pc : Option ContextRow) (reason : String) (snapId : Option Nat)
    (db2 : DB) :
    (saveFinish input u nf ws pc reason snapId true db2).2 = db2 ∧
    ∃ e, (saveFinish input u nf ws pc reason snapId true db2).1 = .error e := by
  unfold saveFinish
  split_ifs <;> try exact ⟨rfl, _, rfl⟩
  all_goals (exfalso; simp_all)

theorem saveStep1_frame (prim : Prim) (input : SaveInput) (uid : Option String)
    (nf : List FileInput) (db : DB) :
    (saveStep1 prim input uid nf db).2.2.2.sessions = db.sessions ∧
    (saveStep1 prim input uid nf db).2.2.2.files = db.files ∧
    (saveStep1 prim input uid nf db).2.2.2.convs = db.convs := by
  unfold saveStep1
  cases uid with
  | none => exact ⟨rfl, rfl, rfl⟩
  | some u =>
    dsimp only
    split
    · exact ⟨rfl, rfl, rfl⟩
    · have h1 := createOrUpdate_frame prim db u input.project_name nf
        (alookup input.metadata "description")
      have h2 := createSnapshot_spec prim
        (createOrUpdateProjectContext prim db u input.project_name nf
          (alookup input.metadata "description")).2
        (createOrUpdateProjectContext prim db u input.project_name nf
          (alookup input.metadata "description")).1.id nf
        (match getProjectContext db u input.project_name with
         | some c =>
           if !(c.contextHash ==
               calculateContextHash prim.sha256hex (detectTechStack prim nf).tech_stack) then
             "tech-change"
           else "auto"
         | none => "auto")
      exact ⟨h2.2.2.2.1.trans h1.1, h2.2.2.2.2.1.trans h1.2.1, h2.2.2.2.2.2.1.trans h1.2.2.1⟩

theorem saveStep1_snapshots (prim : Prim) (input : SaveInput) (u : String)
    (nf : List FileInput) (db : DB) (hp : input.project_name ≠ "") :
    (saveStep1 prim input (some u) nf db).2.2.2.snapshots =
      db.snapshots ++
        [(createSnapshot prim
            (createOrUpdateProjectContext prim db u input.project_name nf
              (alookup input.metadata "description")).2
            (createOrUpdateProjectContext prim db u input.project_name nf
              (alookup input.metadata "description")).1.id nf
            (match getProjectContext db u input.project_name with
             | some c =>
               if !(c.contextHash ==
                   calculateContextHash prim.sha256hex (detectTechStack prim nf).tech_stack) then
                 "tech-change"
               else "auto"
             | none => "auto")).1] := by
  have hpb : (input.project_name == "") = false := by simpa using hp
  unfold saveStep1
  simp only [hpb, Bool.false_eq_true, if_false]
  have h1 := createOrUpdate_frame prim db u input.project_name nf
    (alookup input.metadata "description")
  have h2 := createSnapshot_spec prim
    (createOrUpdateProjectContext prim db u input.project_name nf
      (alookup input.metadata "description")).2
    (createOrUpdateProjectContext prim db u input.project_name nf
      (alookup input.metadata "description")).1.id nf
    (match getProjectContext db u input.project_name with
     | some c =>
       if !(c.contextHash ==
           calculateContextHash prim.sha256hex (detectTechStack prim nf).tech_stack) then
         "tech-change"
       else "auto"
     | none => "auto")
  rw [h2.1, h1.2.2.2]

theorem saveSession_snapshots (prim : Prim) (fail : Bool) (input : SaveInput)
    (uid : Option String) (db : DB) :
    (saveSession prim fail input uid db).2.snapshots =
      (saveStep1 prim input uid (normalizedFilesOf db input) db).2.2.2.snapshots := by
  unfold saveSession
  cases uid with
  | none => rfl
  | some u => exact (saveFinish_snapshots _ _ _ _ _ _ _ _ _).1

/-! ## C1 -/

/-- C1 counterexample: a forced failure after the file inserts and before
the conversation inserts rolls back the session, file and conversation
rows, but the project-context row and the snapshot row written for that
save remain visible — they were not part of the same transaction, so the
writes of the save are not committed or rolled back as one unit. -/
theorem C1_counterexample :
    (saveSession prim0 true inp0 (some "u1") DB.empty).1 =
      .error "forced failure before conversation insert" ∧
    (saveSession prim0 true inp0 (some "u1") DB.empty).2.sessions = [] ∧
    (saveSession prim0 true inp0 (some "u1") DB.empty).2.files = [] ∧
    (saveSession prim0 true inp0 (some "u1") DB.empty).2.convs = [] ∧
    (saveSession prim0 true inp0 (some "u1") DB.empty).2.contexts.length = 1 ∧
    (saveSession prim0 true inp0 (some "u1") DB.empty).2.snapshots.length = 1 :=
  ⟨rfl, rfl, rfl, rfl, rfl, rfl⟩

/-- C1 (amended): when a save fails after some writes (the forced failure
before the conversation inserts), the session, file and conversation rows
of that save are rolled back together — none is visible afterwards — but
the project-context and snapshot writes of the save were performed on
separate connections (`ProjectManager` uses its own transaction and pool
queries), are already committed, and survive the rollback. -/
theorem C1_amended_partial_rollback (prim : Prim) (input : SaveInput) (u : String)
    (db : DB) (hp : input.project_name ≠ "") :
    (∃ e, (saveSession prim true input (some u) db).1 = .error e) ∧
    (saveSession prim true input (some u) db).2.sessions = db.sessions ∧
    (saveSession prim true input (some u) db).2.files = db.files ∧
    (saveSession prim true input (some u) db).2.convs = db.convs ∧
    ∃ snap, (saveSession prim true input (some u) db).2.snapshots = db.snapshots ++ [snap] := by
  have hframe := saveStep1_frame prim input (some u) (normalizedFilesOf db input) db
  have hsnap := saveStep1_snapshots prim input u (normalizedFilesOf db input) db hp
  have hfail := saveFinish_fail input u (normalizedFilesOf db input) input.files.isEmpty
    (saveStep1 prim input (some u) (normalizedFilesOf db input) db).1
    (saveStep1 prim input (some u) (normalizedFilesOf db input) db).2.1
    (saveStep1 prim input (some u) (normalizedFilesOf db input) db).2.2.1
    (saveStep1 prim input (some u) (normalizedFilesOf db input) db).2.2.2
  have hdef : saveSession prim true input (some u) db =
      saveFinish input u (normalizedFilesOf db input) input.files.isEmpty
        (saveStep1 prim input (some u) (normalizedFilesOf db input) db).1
        (saveStep1 prim input (some u) (normalizedFilesOf db input) db).2.1
        (saveStep1 prim input (some u) (normalizedFilesOf db input) db).2.2.1 true
        (saveStep1 prim input (some u) (normalizedFilesOf db input) db).2.2.2 := rfl
  rw [hdef, hfail.1]
  exact ⟨hfail.2, hframe.1, hframe.2.1, hframe.2.2, _, hsnap⟩

/-- C1 amended witness: the theorem applied to the concrete failing save
on the empty store. -/
theorem C1_amended_witness :
    (∃ e, (saveSession prim0 true inp0 (some "u1") DB.empty).1 = .error e) ∧
    (saveSession prim0 true inp0 (some "u1") DB.empty).2.sessions = DB.empty.sessions ∧
    (saveSession prim0 true inp0 (some "u1") DB.empty).2.files = DB.empty.files ∧
    (saveSession prim0 true inp0 (some "u1") DB.empty).2.convs = DB.empty.convs ∧
    ∃ snap, (saveSession prim0 true inp0 (some "u1") DB.empty).2.snapshots =
      DB.empty.snapshots ++ [snap] :=
  C1_amended_partial_rollback prim0 inp0 "u1" DB.empty (by decide)

/-! ## C3 -/

/-- C3 counterexample: two identical saves of the same project. After the
first save the stored context fingerprint equals the freshly detected one,
so the second save detects no change, yet the second save still creates a
new snapshot (the snapshot count rises from 1 to 2): a save with unchanged
facts does not create zero snapshots. -/
theorem C3_counterexample :
    (saveSession prim0 false inp0 (some "u1") DB.empty).2.snapshots.length = 1 ∧
    (getProjectContext (saveSession prim0 false inp0 (some "u1") DB.empty).2 "u1"
        "proj-a").map (fun c => c.contextHash) =
      some (calculateContextHash prim0.sha256hex (detectTechStack prim0 inp0.files).tech_stack) ∧
    (saveSession prim0 false inp0 (some "u1")
        (saveSession prim0 false inp0 (some "u1") DB.empty).2).2.snapshots.length = 2 :=
  ⟨rfl, rfl, rfl⟩

/-- C3 (amended): every save with an authenticated user and a non-empty
project name creates exactly one new snapshot — also when the detected
facts are unchanged. Its reason is `tech-change` exactly when an active
context exists whose stored fingerprint differs from the freshly computed
one, and `auto` otherwise (including the first save; the code never uses a
`first-seen` reason and has no snapshot-count-zero bootstrap of its own). -/
theorem C3_amended_snapshot_every_save (prim : Prim) (fail : Bool) (input : SaveInput)
    (u : String) (db : DB) (hp : input.project_name ≠ "") :
    ∃ snap : SnapshotRow,
      (saveSession prim fail input (some u) db).2.snapshots = db.snapshots ++ [snap] ∧
      snap.reason =
        (match getProjectContext db u input.project_name with
         | some c =>
           if !(c.contextHash == calculateContextHash prim.sha256hex
               (detectTechStack prim (normalizedFilesOf db input)).tech_stack) then
             "tech-change"
           else "auto"
         | none => "auto") ∧
      snap.contextId =
        (createOrUpdateProjectContext prim db u input.project_name
          (normalizedFilesOf db input) (alookup input.metadata "description")).1.id := by
  have hs := saveSession_snapshots prim fail input (some u) db
  have hsnap := saveStep1_snapshots prim input u (normalizedFilesOf db input) db hp
  rw [hs, hsnap]
  refine ⟨_, rfl, ?_, ?_⟩
  · exact (createSnapshot_spec _ _ _ _ _).2.1
  · exact (createSnapshot_spec _ _ _ _ _).2.2.1

/-- C3 amended witness: the theorem applied to a concrete save on the
empty store. -/
theorem C3_amended_witness :
    ∃ snap : SnapshotRow,
      (saveSession prim0 false inp0 (some "u1") DB.empty).2.snapshots =
        DB.empty.snapshots ++ [snap] ∧
      snap.reason =
        (match getProjectContext DB.empty "u1" inp0.project_name with
         | some c =>
           if !(c.contextHash == calculateContextHash prim0.sha256hex
               (detectTechStack prim0 (normalizedFilesOf DB.empty inp0)).tech_stack) then
             "tech-change"
           else "auto"
         | none => "auto") ∧
      snap.contextId =
        (createOrUpdateProjectContext prim0 DB.empty "u1" inp0.project_name
          (normalizedFilesOf DB.empty inp0) (alookup inp0.metadata "description")).1.id :=
  C3_amended_snapshot_every_save prim0 false inp0 "u1" DB.empty (by decide)

/-! ## C2 -/

theorem listMax_concat (xs : List Nat) (a : Nat) :
    listMax (xs ++ [a]) = max (listMax xs) a := by
  induction xs with
  | nil => simp [listMax]
  | cons x xs ih =>
    rw [List.cons_append]
    show max x (listMax (xs ++ [a])) = max (max x (listMax xs)) a
    rw [ih]
    exact (Nat.max_assoc x (listMax xs) a).symm

theorem listMax_range' (m : Nat) : listMax (List.range' 1 m) = m := by
  induction m with
  | zero => rfl
  | succ m ih =>
    rw [List.range'_1_concat, listMax_concat, ih]
    omega

theorem versionsOf_snoc (u n p : String) (db db' : DB) (row : SessionRow)
    (h : db'.sessions = db.sessions ++ [row]) :
    versionsOf u n p db' =
      versionsOf u n p db ++
        (if row.userId == u && row.name == n && row.projectName == p then [row.version]
         else []) := by
  unfold versionsOf
  rw [h, List.filter_append, List.map_append]
  congr 1
  cases hb : (row.userId == u && row.name == n && row.projectName == p) <;>
    simp [List.filter, hb]

theorem versionsOf_eq_of_sessions_eq (u n p : String) (db db' : DB)
    (h : db'.sessions = db.sessions) : versionsOf u n p db' = versionsOf u n p db := by
  unfold versionsOf
  rw [h]

theorem nodupStr_singleton (x : String) : nodupStr [x] = true := rfl

/-- Case analysis of one `saveSession` call: a call that is not
well formed leaves the sessions table unchanged (the transaction rolled
back or never started), and a well-formed call appends exactly one session
row carrying the key of the call and the version `max(existing) + 1`. -/
theorem saveSession_sessions_cases (prim : Prim) (c : SaveCall) (db : DB) :
    (wfCall c = false ∧
      (saveSession prim c.fail c.input c.userId db).2.sessions = db.sessions) ∨
    (wfCall c = true ∧
      ∃ (u : String) (row : SessionRow), c.userId = some u ∧
        (saveSession prim c.fail c.input c.userId db).2.sessions =
          db.sessions ++ [row] ∧
        row.userId = u ∧ row.name = c.input.session_name ∧
        row.projectName = c.input.project_name ∧
        row.version =
          listMax (versionsOf u c.input.session_name c.input.project_name db) + 1) := by
  obtain ⟨uid, input, fail⟩ := c
  cases uid with
  | none =>
    left
    refine ⟨by simp [wfCall, wfProp], ?_⟩
    exact (saveStep1_frame prim input none (normalizedFilesOf db input) db).1
  | some u =>
    have hframe := saveStep1_frame prim input (some u) (normalizedFilesOf db input) db
    have hdef : saveSession prim fail input (some u) db =
        saveFinish input u (normalizedFilesOf db input) input.files.isEmpty
          (saveStep1 prim input (some u) (normalizedFilesOf db input) db).1
          (saveStep1 prim input (some u) (normalizedFilesOf db input) db).2.1
          (saveStep1 prim input (some u) (normalizedFilesOf db input) db).2.2.1 fail
          (saveStep1 prim input (some u) (normalizedFilesOf db input) db).2.2.2 := rfl
    simp only [hdef]
    unfold saveFinish
    split_ifs with h1 h2 h3 h4 h5
    · left
      refine ⟨?_, hframe.1⟩
      simp only [Bool.or_eq_true, beq_iff_eq] at h1
      simp only [wfCall, decide_eq_false_iff_not, wfProp]
      rcases h1 with h1 | h1 <;> intro hw
      · exact hw.2.2.1 h1
      · exact hw.2.2.2.1 h1
    · left
      refine ⟨?_, hframe.1⟩
      simp only [Bool.not_eq_true'] at h2
      simp only [wfCall, decide_eq_false_iff_not, wfProp]
      intro hw
      rcases hw.2.2.2.2.1 with hE | hN
      · rw [show normalizedFilesOf db input =
            [createSyntheticFile (toString db.clock) input] by
              simp [normalizedFilesOf, hE]] at h2
        rw [show ([createSyntheticFile (toString db.clock) input].map
            (fun f => f.path)) = ["CONVERSATION_SUMMARY.md"] from rfl] at h2
        rw [nodupStr_singleton] at h2
        cases h2
      · have hE : input.files.isEmpty = false := by
          by_cases hE : input.files.isEmpty
          · rw [show normalizedFilesOf db input =
                [createSyntheticFile (toString db.clock) input] by
                  simp [normalizedFilesOf, hE]] at h2
            rw [show ([createSyntheticFile (toString db.clock) input].map
                (fun f => f.path)) = ["CONVERSATION_SUMMARY.md"] from rfl] at h2
            rw [nodupStr_singleton] at h2
            cases h2
          · simpa using hE
        rw [show normalizedFilesOf db input = input.files by
          simp [normalizedFilesOf, hE]] at h2
        rw [hN] at h2
        cases h2
    · left
      refine ⟨?_, hframe.1⟩
      simp only [wfCall, decide_eq_false_iff_not, wfProp]
      intro hw
      rw [hw.2.1] at h3
      cases h3
    · left
      refine ⟨?_, hframe.1⟩
      simp only [wfCall, decide_eq_false_iff_not, wfProp]
      intro hw
      have := hw.2.2.2.2.2.1
      omega
    · left
      refine ⟨?_, hframe.1⟩
      simp only [List.any_eq_true, beq_iff_eq] at h5
      simp only [wfCall, decide_eq_false_iff_not, wfProp]
      intro hw
      obtain ⟨m, hm, hmc⟩ := h5
      exact hw.2.2.2.2.2.2 m hm hmc
    · right
      constructor
      · simp only [Bool.or_eq_true, beq_iff_eq] at h1
        push_neg at h1
        simp only [Bool.not_eq_true'] at h2
        simp only [List.any_eq_true, beq_iff_eq] at h5
        push_neg at h5
        simp only [wfCall, decide_eq_true_eq, wfProp]
        refine ⟨rfl, by simpa using h3, h1.1, h1.2, ?_, by omega, h5⟩
        by_cases hE : input.files.isEmpty
        · exact Or.inl hE
        · right
          rw [show normalizedFilesOf db input = input.files by
            simp [normalizedFilesOf, hE]] at h2
          simpa using h2
      · dsimp only
        rw [hframe.1]
        exact ⟨u, _, rfl, rfl, rfl, rfl, rfl,
          congrArg (fun v => listMax v + 1)
            (versionsOf_eq_of_sessions_eq u input.session_name input.project_name db _
              hframe.1)⟩

theorem runSaves_versions (prim : Prim) (u n p : String) :
    ∀ (calls : List SaveCall) (db : DB) (m : Nat),
      versionsOf u n p db = List.range' 1 m →
      versionsOf u n p (runSaves prim calls db) =
        List.range' 1 (m + countKey u n p calls) := by
  intro calls
  induction calls with
  | nil =>
    intro db m h
    simpa [runSaves, countKey] using h
  | cons c rest ih =>
    intro db m h
    have hrun : runSaves prim (c :: rest) db =
        runSaves prim rest (saveSession prim c.fail c.input c.userId db).2 := rfl
    rw [hrun]
    rcases saveSession_sessions_cases prim c db with ⟨hwf, hsess⟩ | ⟨hwf, u', row, hu', happ, hru, hrn, hrp, hrv⟩
    · have hv : versionsOf u n p (saveSession prim c.fail c.input c.userId db).2 =
          List.range' 1 m :=
        (versionsOf_eq_of_sessions_eq u n p db _ hsess).trans h
      have hc : countKey u n p (c :: rest) = countKey u n p rest := by
        simp [countKey, List.countP_cons, hwf]
      rw [hc]
      exact ih _ m hv
    · have hsnoc := versionsOf_snoc u n p db _ row happ
      by_cases hk : keyMatches u n p c = true
      · have hk' := hk
        simp only [keyMatches, Bool.and_eq_true, beq_iff_eq] at hk'
        obtain ⟨⟨hku, hkn⟩, hkp⟩ := hk'
        have huu : u' = u := by
          rw [hu'] at hku
          simpa using hku
        have hpred : (row.userId == u && row.name == n && row.projectName == p) = true := by
          simp [hru, hrn, hrp, huu, hkn, hkp]
        have hv : versionsOf u n p (saveSession prim c.fail c.input c.userId db).2 =
            List.range' 1 (m + 1) := by
          rw [hsnoc, hpred, if_pos rfl]
          have hv1 : row.version = m + 1 := by
            rw [hrv, huu, hkn, hkp, h, listMax_range']
          rw [hv1, h, List.range'_1_concat, Nat.add_comm 1 m]
        have hc : countKey u n p (c :: rest) = countKey u n p rest + 1 := by
          simp [countKey, List.countP_cons, hwf, hk]
        rw [hc]
        have := ih _ (m + 1) hv
        rw [this]
        congr 1
        omega
      · have hkf : ¬(c.userId = some u ∧ c.input.session_name = n ∧
            c.input.project_name = p) := by
          intro ⟨ha, hb, hc2⟩
          apply hk
          simp [keyMatches, ha, hb, hc2]
        have hpred : (row.userId == u && row.name == n && row.projectName == p) = false := by
          rw [hru, hrn, hrp]
          by_cases h1 : u' = u
          · by_cases h2 : c.input.session_name = n
            · by_cases h3 : c.input.project_name = p
              · exact absurd ⟨by rw [hu', h1], h2, h3⟩ hkf
              · simp [h3]
            · simp [h2]
          · simp [h1]
        have hv : versionsOf u n p (saveSession prim c.fail c.input c.userId db).2 =
            List.range' 1 m := by
          rw [hsnoc, hpred]
          simpa using h
        have hc : countKey u n p (c :: rest) = countKey u n p rest := by
          have : (wfCall c && keyMatches u n p c) = false := by
            have hkb : keyMatches u n p c = false := by
              cases hkm : keyMatches u n p c
              · rfl
              · exfalso
                simp only [keyMatches, Bool.and_eq_true, beq_iff_eq] at hkm
                exact hkf ⟨hkm.1.1, hkm.1.2, hkm.2⟩
            simp [hkb]
          simp [countKey, List.countP_cons, this]
        rw [hc]
        exact ih _ m hv

/-- C2: version assignment. Every committed save under a key assigns the
version `max(existing versions for that key) + 1` (`listMax [] = 0`, so
the first version is 1), and after any sequence of sequential saves — with
arbitrary interleaving of other keys, failing calls included — the
versions stored for a key that started empty are exactly
`[1, ..., N]` where N is the number of committed saves under that key:
contiguous, starting at 1, with no gaps and no repeats. -/
theorem C2_version_assignment (prim : Prim) (u n p : String) (calls : List SaveCall)
    (db : DB) (h0 : versionsOf u n p db = []) :
    (∀ (db' : DB) (c : SaveCall), c.userId = some u → wfCall c = true →
      c.input.session_name = n → c.input.project_name = p →
      versionsOf u n p (saveSession prim c.fail c.input c.userId db').2 =
        versionsOf u n p db' ++ [listMax (versionsOf u n p db') + 1]) ∧
    versionsOf u n p (runSaves prim calls db) =
      List.range' 1 (countKey u n p calls) := by
  constructor
  · intro db' c hu hwf hn hp
    rcases saveSession_sessions_cases prim c db' with ⟨hwf2, _⟩ | ⟨_, u2, row, hu2, happ, hru, hrn, hrp, hrv⟩
    · rw [hwf] at hwf2
      cases hwf2
    · have huu : u2 = u := by
        rw [hu] at hu2
        injection hu2 with h
        exact h.symm
      have hsnoc := versionsOf_snoc u n p db' _ row happ
      have hpred : (row.userId == u && row.name == n && row.projectName == p) = true := by
        simp [hru, hrn, hrp, huu, hn, hp]
      rw [hsnoc, hpred, if_pos rfl, hrv, huu, hn, hp]
  · have := runSaves_versions prim u n p calls db 0 (by simpa using h0)
    simpa using this

/-- C2 witness: one committed save under the key (u1, bug-fix, proj-a) on
the empty store yields the version list [1]. -/
theorem C2_witness :
    versionsOf "u1" "bug-fix" "proj-a"
        (runSaves prim0 [{ userId := some "u1", input := inp0, fail := false }] DB.empty) =
      List.range' 1 (countKey "u1" "bug-fix" "proj-a"
        [{ userId := some "u1", input := inp0, fail := false }]) :=
  (C2_version_assignment prim0 "u1" "bug-fix" "proj-a"
    [{ userId := some "u1", input := inp0, fail := false }] DB.empty rfl).2

/-! ## C8 -/

theorem strInfix_self (s : String) : strInfix s s :=
  ⟨[], [], by simp⟩

theorem strInfix_append_left (x : String) {n h : String} (hi : strInfix n h) :
    strInfix n (x ++ h) := by
  obtain ⟨a, b, hb⟩ := hi
  exact ⟨x.data ++ a, b, by simp [hb]⟩

theorem strInfix_append_right {n h : String} (x : String) (hi : strInfix n h) :
    strInfix n (h ++ x) := by
  obtain ⟨a, b, hb⟩ := hi
  exact ⟨a, b ++ x.data, by simp [hb]⟩

theorem strInfix_trans {a b c : String} (h1 : strInfix a b) (h2 : strInfix b c) :
    strInfix a c := by
  obtain ⟨x, y, hxy⟩ := h1
  obtain ⟨v, w, hvw⟩ := h2
  exact ⟨v ++ x, y ++ w, by simp [hvw, hxy]⟩

theorem strInfix_joinSep {sep : String} {s : String} {l : List String} (h : s ∈ l) :
    strInfix s (joinSep sep l) := by
  induction l with
  | nil => cases h
  | cons x xs ih =>
    cases xs with
    | nil =>
      rcases List.mem_singleton.mp h with rfl
      exact strInfix_self s
    | cons y ys =>
      rcases List.mem_cons.mp h with rfl | hmem
      · have : joinSep sep (s :: y :: ys) = s ++ (sep ++ joinSep sep (y :: ys)) := by
          simp [joinSep, String.append_assoc]
        rw [this]
        exact strInfix_append_right _ (strInfix_self s)
      · have : joinSep sep (x :: y :: ys) = (x ++ sep) ++ joinSep sep (y :: ys) := by
          simp [joinSep, String.append_assoc]
        rw [this]
        exact strInfix_append_left _ (ih hmem)

theorem saveSession_ok_files (prim : Prim) (fail : Bool) (input : SaveInput)
    (uid : Option String) (db : DB) (out : SaveOutput) (db' : DB)
    (hrun : saveSession prim fail input uid db = (.ok out, db')) :
    out.session_id = (saveStep1 prim input uid (normalizedFilesOf db input) db).2.2.2.nextId ∧
    db'.files = db.files ++
      fileRowsOf (saveStep1 prim input uid (normalizedFilesOf db input) db).2.2.2.nextId
        (saveStep1 prim input uid (normalizedFilesOf db input) db).2.2.2.nextId
        (normalizedFilesOf db input) := by
  cases uid with
  | none =>
    have := congrArg Prod.fst hrun
    simp [saveSession] at this
  | some u =>
    have hframe := saveStep1_frame prim input (some u) (normalizedFilesOf db input) db
    have hdef : saveSession prim fail input (some u) db =
        saveFinish input u (normalizedFilesOf db input) input.files.isEmpty
          (saveStep1 prim input (some u) (normalizedFilesOf db input) db).1
          (saveStep1 prim input (some u) (normalizedFilesOf db input) db).2.1
          (saveStep1 prim input (some u) (normalizedFilesOf db input) db).2.2.1 fail
          (saveStep1 prim input (some u) (normalizedFilesOf db input) db).2.2.2 := rfl
    rw [hdef] at hrun
    unfold saveFinish at hrun
    split_ifs at hrun
    · have := congrArg Prod.fst hrun
      simp at this
    · have := congrArg Prod.fst hrun
      simp at this
    · have := congrArg Prod.fst hrun
      simp at this
    · have := congrArg Prod.fst hrun
      simp at this
    · have := congrArg Prod.fst hrun
      simp at this
    · have h1 := congrArg Prod.fst hrun
      have h2 := congrArg Prod.snd hrun
      simp only at h1 h2
      have ho := Except.ok.inj h1
      constructor
      · rw [← ho]
      · rw [← h2]
        show (saveStep1 prim input (some u) (normalizedFilesOf db input) db).2.2.2.files ++
            _ = _
        rw [hframe.2.1]

theorem createOrUpdate_nextId (prim : Prim) (db : DB) (u p : String)
    (files : List FileInput) (desc : Option Jval) :
    db.nextId ≤ (createOrUpdateProjectContext prim db u p files desc).2.nextId := by
  unfold createOrUpdateProjectContext
  dsimp only
  split
  · exact Nat.le_refl _
  · exact Nat.le_succ _

theorem saveStep1_nextId_ge (prim : Prim) (input : SaveInput) (uid : Option String)
    (nf : List FileInput) (db : DB) :
    db.nextId ≤ (saveStep1 prim input uid nf db).2.2.2.nextId := by
  unfold saveStep1
  cases uid with
  | none => exact Nat.le_refl _
  | some u =>
    dsimp only
    split
    · exact Nat.le_refl _
    · have h1 := createOrUpdate_nextId prim db u input.project_name nf
        (alookup input.metadata "description")
      exact Nat.le_trans h1 (Nat.le_succ _)

theorem fileRowsOf_singleton (base sid : Nat) (f : FileInput) :
    fileRowsOf base sid [f] =
      [{ id := base + 1 + 0, sessionId := sid, path := f.path, content := f.content,
         contentHash := calculateContentHash f.content,
         lineCount := (splitNl f.content).length }] := by
  simp [fileRowsOf]

/-- C8: a save whose input file list is empty persists exactly one
synthesized markdown file (`CONVERSATION_SUMMARY.md`), and that file
embeds the most recent 10 conversation turns and the serialized metadata
map as substrings. The id-freshness hypothesis says existing file rows
reference ids the generator has already handed out, which every reachable
store satisfies. -/
theorem C8_empty_files_synthesis (prim : Prim) (fail : Bool) (input : SaveInput)
    (uid : Option String) (db : DB) (out : SaveOutput) (db' : DB)
    (hempty : input.files = [])
    (hfree : ∀ f ∈ db.files, f.sessionId < db.nextId)
    (hrun : saveSession prim fail input uid db = (.ok out, db')) :
    (filesOf db' out.session_id).map (fun f => (f.path, f.content)) =
      [("CONVERSATION_SUMMARY.md", (createSyntheticFile (toString db.clock) input).content)] ∧
    (∀ m ∈ takeLast 10 input.conversation,
      strInfix m.content (createSyntheticFile (toString db.clock) input).content) ∧
    strInfix (metadataSectionOf input.metadata)
      (createSyntheticFile (toString db.clock) input).content := by
  have hnf : normalizedFilesOf db input =
      [createSyntheticFile (toString db.clock) input] := by
    simp [normalizedFilesOf, hempty]
  obtain ⟨hsid, hfiles⟩ := saveSession_ok_files prim fail input uid db out db' hrun
  refine ⟨?_, ?_, ?_⟩
  · have hge := saveStep1_nextId_ge prim input uid (normalizedFilesOf db input) db
    rw [hnf] at hsid hfiles hge
    have hnil : db.files.filter
        (fun f => f.sessionId == out.session_id) = [] := by
      rw [List.filter_eq_nil_iff]
      intro f hf
      have := hfree f hf
      simp only [beq_iff_eq, hsid]
      omega
    have hkeep : ((saveStep1 prim input uid
        [createSyntheticFile (toString db.clock) input] db).2.2.2.nextId ==
          out.session_id) = true := by
      simp [hsid]
    unfold filesOf
    rw [hfiles, List.filter_append, hnil, fileRowsOf_singleton]
    simp only [List.filter, hkeep, List.nil_append]
    simp [createSyntheticFile]
  · intro m hm
    have hconvne : input.conversation ≠ [] := by
      intro hc
      rw [hc] at hm
      simp [takeLast] at hm
    have hlen : input.conversation.length > 0 := List.length_pos.mpr hconvne
    have hrecne : takeLast 10 input.conversation ≠ [] := List.ne_nil_of_mem hm
    have hreclen : (takeLast 10 input.conversation).length > 0 := List.length_pos.mpr hrecne
    have hsec : conversationSectionOf input.conversation =
        joinSep "\n\n"
          ((takeLast 10 input.conversation).map
            (fun msg => "### " ++ upperStr msg.role ++ "\n" ++ msg.content)) := by
      simp [conversationSectionOf, hlen, hreclen]
    have hpiece : strInfix ("### " ++ upperStr m.role ++ "\n" ++ m.content)
        (conversationSectionOf input.conversation) := by
      rw [hsec]
      exact strInfix_joinSep (List.mem_map_of_mem _ hm)
    have hm2 : strInfix m.content ("### " ++ upperStr m.role ++ "\n" ++ m.content) :=
      strInfix_append_left _ (strInfix_self _)
    have hsecin : strInfix (conversationSectionOf input.conversation)
        (createSyntheticFile (toString db.clock) input).content := by
      apply strInfix_joinSep
      simp [createSyntheticFile]
    exact strInfix_trans (strInfix_trans hm2 hpiece) hsecin
  · apply strInfix_trans (strInfix_self _)
    apply strInfix_joinSep
    simp [createSyntheticFile]

/-- C8 witness: a concrete save with an empty file list, one conversation
turn and one metadata entry; the theorem is applied at that input (the
generated session id is 2: ids 0 and 1 went to the context and snapshot
rows). -/
theorem C8_witness :
    (filesOf (saveSession prim0 false { inp0 with files := [] } (some "u1") DB.empty).2
        2).map (fun f => (f.path, f.content)) =
      [("CONVERSATION_SUMMARY.md",
        (createSyntheticFile (toString DB.empty.clock) { inp0 with files := [] }).content)] := by
  have h := C8_empty_files_synthesis prim0 false { inp0 with files := [] } (some "u1")
    DB.empty
    { session_id := 2, status := "saved", message := "Session saved as bug-fix",
      version := 1, project_context_id := some 0 }
    (saveSession prim0 false { inp0 with files := [] } (some "u1") DB.empty).2
    rfl (by intro f hf; cases hf) rfl
  exact h.1

/-! ## C10 -/

theorem alookup_setKey_self {α : Type} (m : List (String × α)) (k : String) (v : α) :
    alookup (setKey m k v) k = some v := by
  induction m with
  | nil => simp [setKey, alookup]
  | cons e rest ih =>
    obtain ⟨k', v'⟩ := e
    by_cases h : k' == k <;> simp [setKey, alookup, h, ih]

theorem alookup_setKey_other {α : Type} (m : List (String × α)) (k : String) (v : α)
    (k2 : String) (h : k2 ≠ k) : alookup (setKey m k v) k2 = alookup m k2 := by
  induction m with
  | nil =>
    simp [setKey, alookup]
    intro he
    exact absurd he.symm h
  | cons e rest ih =>
    obtain ⟨k', v'⟩ := e
    by_cases hk : k' == k
    · have hk' : k' = k := by simpa using hk
      subst hk'
      have h2 : (k' == k2) = false := by
        simp
        exact fun he => h he.symm
      simp [setKey, alookup, h2]
    · by_cases h3 : k' == k2 <;> simp [setKey, alookup, hk, h3, ih]

theorem getLast?_concat_eq {α : Type} (l : List α) (a : α) :
    (l ++ [a]).getLast? = some a := by
  simp

theorem saveStep1_ctx (prim : Prim) (input : SaveInput) (u : String)
    (nf : List FileInput) (db : DB) (hp : input.project_name ≠ "") :
    (saveStep1 prim input (some u) nf db).1 =
      some (createOrUpdateProjectContext prim db u input.project_name nf
        (alookup input.metadata "description")).1 ∧
    ((saveStep1 prim input (some u) nf db).2.1 = "auto" ∨
      (saveStep1 prim input (some u) nf db).2.1 = "tech-change") ∧
    (saveStep1 prim input (some u) nf db).2.2.1 =
      some (createSnapshot prim
        (createOrUpdateProjectContext prim db u input.project_name nf
          (alookup input.metadata "description")).2
        (createOrUpdateProjectContext prim db u input.project_name nf
          (alookup input.metadata "description")).1.id nf
        (match getProjectContext db u input.project_name with
         | some c =>
           if !(c.contextHash == calculateContextHash prim.sha256hex
               (detectTechStack prim nf).tech_stack) then
             "tech-change"
           else "auto"
         | none => "auto")).1.id := by
  have hpb : (input.project_name == "") = false := by simpa using hp
  unfold saveStep1
  simp only [hpb, Bool.false_eq_true, if_false]
  refine ⟨by trivial, ?_, by trivial⟩
  cases hg : getProjectContext db u input.project_name with
  | none => exact Or.inl rfl
  | some c =>
    by_cases hh : (c.contextHash == calculateContextHash prim.sha256hex
        (detectTechStack prim nf).tech_stack)
    · left
      simp [hg, hh]
    · right
      simp [hg, hh]

theorem saveSession_ok_row (prim : Prim) (fail : Bool) (input : SaveInput)
    (uid : Option String) (db : DB) (out : SaveOutput) (db' : DB)
    (hrun : saveSession prim fail input uid db = (.ok out, db')) :
    ∃ u, uid = some u ∧ strTrim input.project_name ≠ "" ∧
      db'.sessions.getLast? = some
        { id := (saveStep1 prim input uid (normalizedFilesOf db input) db).2.2.2.nextId
          userId := u
          name := input.session_name
          projectName := input.project_name
          version := listMax (versionsOf u input.session_name input.project_name
            (saveStep1 prim input uid (normalizedFilesOf db input) db).2.2.2) + 1
          metadata := storedSessionMetadata input.metadata
            (saveStep1 prim input uid (normalizedFilesOf db input) db).1
            (saveStep1 prim input uid (normalizedFilesOf db input) db).2.1
            (saveStep1 prim input uid (normalizedFilesOf db input) db).2.2.1
            input.files.isEmpty
          snapshotId := (saveStep1 prim input uid (normalizedFilesOf db input) db).2.2.1
          createdAt := (saveStep1 prim input uid (normalizedFilesOf db input) db).2.2.2.clock
          updatedAt :=
            (saveStep1 prim input uid (normalizedFilesOf db input) db).2.2.2.clock } := by
  cases uid with
  | none =>
    have := congrArg Prod.fst hrun
    simp [saveSession] at this
  | some u =>
    have hdef : saveSession prim fail input (some u) db =
        saveFinish input u (normalizedFilesOf db input) input.files.isEmpty
          (saveStep1 prim input (some u) (normalizedFilesOf db input) db).1
          (saveStep1 prim input (some u) (normalizedFilesOf db input) db).2.1
          (saveStep1 prim input (some u) (normalizedFilesOf db input) db).2.2.1 fail
          (saveStep1 prim input (some u) (normalizedFilesOf db input) db).2.2.2 := rfl
    rw [hdef] at hrun
    unfold saveFinish at hrun
    split_ifs at hrun with h1 h2 h3 h4 h5
    · have := congrArg Prod.fst hrun
      simp at this
    · have := congrArg Prod.fst hrun
      simp at this
    · have := congrArg Prod.fst hrun
      simp at this
    · have := congrArg Prod.fst hrun
      simp at this
    · have := congrArg Prod.fst hrun
      simp at this
    · have h2' := congrArg Prod.snd hrun
      simp only at h2'
      simp only [Bool.or_eq_true, beq_iff_eq] at h1
      push_neg at h1
      refine ⟨u, rfl, h1.2, ?_⟩
      rw [← h2']
      exact getLast?_concat_eq _ _

theorem storedSessionMetadata_lookups (meta : List (String × Jval)) (c : ContextRow)
    (reason : String) (i : Nat) (ws : Bool) :
    alookup (storedSessionMetadata meta (some c) reason (some i) ws)
        "project_context_id" = some (.num c.id) ∧
    alookup (storedSessionMetadata meta (some c) reason (some i) ws)
        "tech_stack_detected" = some (.bool true) ∧
    alookup (storedSessionMetadata meta (some c) reason (some i) ws)
        "snapshot_reason" = some (.str reason) ∧
    alookup (storedSessionMetadata meta (some c) reason (some i) ws)
        "snapshot_id" = some (.num i) ∧
    alookup (storedSessionMetadata meta (some c) reason (some i) ws)
        "synthetic_files_added" = some (.bool ws) ∧
    ∀ k, k ≠ "project_context_id" → k ≠ "tech_stack_detected" → k ≠ "snapshot_reason" →
      k ≠ "snapshot_id" → k ≠ "synthetic_files_added" →
      alookup (storedSessionMetadata meta (some c) reason (some i) ws) k =
        alookup meta k := by
  unfold storedSessionMetadata
  refine ⟨?_, ?_, ?_, ?_, ?_, ?_⟩
  · rw [alookup_setKey_other _ _ _ _ (by decide), alookup_setKey_other _ _ _ _ (by decide),
      alookup_setKey_other _ _ _ _ (by decide), alookup_setKey_other _ _ _ _ (by decide),
      alookup_setKey_self]
  · rw [alookup_setKey_other _ _ _ _ (by decide), alookup_setKey_other _ _ _ _ (by decide),
      alookup_setKey_other _ _ _ _ (by decide), alookup_setKey_self]
    rfl
  · rw [alookup_setKey_other _ _ _ _ (by decide), alookup_setKey_other _ _ _ _ (by decide),
      alookup_setKey_self]
  · rw [alookup_setKey_other _ _ _ _ (by decide), alookup_setKey_self]
  · rw [alookup_setKey_self]
  · intro k h1 h2 h3 h4 h5
    rw [alookup_setKey_other _ _ _ _ h5, alookup_setKey_other _ _ _ _ h4,
      alookup_setKey_other _ _ _ _ h3, alookup_setKey_other _ _ _ _ h2,
      alookup_setKey_other _ _ _ _ h1]

/-- C10: every committed save stores not the caller's metadata verbatim
but the caller's map extended with the five engine bookkeeping keys
(`project_context_id`, `tech_stack_detected`, `snapshot_reason`,
`snapshot_id`, `synthetic_files_added`), while every caller entry under
any other key is stored unchanged. The second part documents the bug that
blocks the final clause of the claim: `retrieveFullSession` always throws
(its summaries query references `file_id` columns that no table of this
schema has), so a hydrated resume never returns the metadata with the
`project_context` key merged in. -/
theorem C10_metadata_bookkeeping (prim : Prim) (fail : Bool) (input : SaveInput)
    (uid : Option String) (db : DB) (out : SaveOutput) (db' : DB)
    (hrun : saveSession prim fail input uid db = (.ok out, db')) :
    (∃ row, db'.sessions.getLast? = some row ∧
      (∃ pcid, alookup row.metadata "project_context_id" = some (.num pcid)) ∧
      alookup row.metadata "tech_stack_detected" = some (.bool true) ∧
      (alookup row.metadata "snapshot_reason" = some (.str "auto") ∨
        alookup row.metadata "snapshot_reason" = some (.str "tech-change")) ∧
      (∃ sid, alookup row.metadata "snapshot_id" = some (.num sid)) ∧
      alookup row.metadata "synthetic_files_added" = some (.bool input.files.isEmpty) ∧
      (∀ k, k ≠ "project_context_id" → k ≠ "tech_stack_detected" →
        k ≠ "snapshot_reason" → k ≠ "snapshot_id" → k ≠ "synthetic_files_added" →
        alookup row.metadata k = alookup input.metadata k)) ∧
    (∀ (dbr : DB) (sid : Nat) (fp : Option String),
      ∃ e, retrieveFullSession dbr sid fp = .error e) := by
  constructor
  · obtain ⟨u, huid, hpne, hrow⟩ := saveSession_ok_row prim fail input uid db out db' hrun
    subst huid
    have hp : input.project_name ≠ "" := by
      intro h
      apply hpne
      rw [h]
      rfl
    obtain ⟨hctx, hreason, hsnap⟩ :=
      saveStep1_ctx prim input u (normalizedFilesOf db input) db hp
    refine ⟨_, hrow, ?_, ?_, ?_, ?_, ?_, ?_⟩ <;>
      simp only [hctx, hsnap]
    · exact ⟨_, (storedSessionMetadata_lookups _ _ _ _ _).1⟩
    · exact (storedSessionMetadata_lookups _ _ _ _ _).2.1
    · rcases hreason with h | h <;> rw [h] at * <;>
        [left; right] <;>
        exact (storedSessionMetadata_lookups _ _ _ _ _).2.2.1
    · exact ⟨_, (storedSessionMetadata_lookups _ _ _ _ _).2.2.2.1⟩
    · exact (storedSessionMetadata_lookups _ _ _ _ _).2.2.2.2.1
    · intro k h1 h2 h3 h4 h5
      exact (storedSessionMetadata_lookups _ _ _ _ _).2.2.2.2.2 k h1 h2 h3 h4 h5
  · intro dbr sid fp
    unfold retrieveFullSession
    cases (dbr.sessions.filter (fun s => s.id == sid)).head? <;> exact ⟨_, rfl⟩

/-- C10 witness: the theorem applied at a concrete committed save; the
projected consequence says hydration of a concrete existing session
errors. -/
theorem C10_witness : ∃ e, retrieveFullSession dbResume 1 none = .error e :=
  (C10_metadata_bookkeeping prim0 false inp0 (some "u1") DB.empty
    { session_id := 2, status := "saved", message := "Session saved as bug-fix",
      version := 1, project_context_id := some 0 }
    (saveSession prim0 false inp0 (some "u1") DB.empty).2 rfl).2 dbResume 1 none

/-! ## Read-path lemmas -/

instance : IsTotal SessionRow (fun a b => b.updatedAt ≤ a.updatedAt) :=
  ⟨fun a b => Nat.le_total b.updatedAt a.updatedAt⟩

instance : IsTrans SessionRow (fun a b => b.updatedAt ≤ a.updatedAt) :=
  ⟨fun a b c h1 h2 => Nat.le_trans h2 h1⟩

theorem retrieveFullSession_isErr (db : DB) (sid : Nat) (fp : Option String) :
    ∃ e, retrieveFullSession db sid fp = .error e := by
  unfold retrieveFullSession
  cases (db.sessions.filter (fun s => s.id == sid)).head? <;> exact ⟨_, rfl⟩

theorem retrieveFullSession_found_err (db : DB) (sid : Nat) (fp : Option String)
    (h : ∃ s ∈ db.sessions, s.id = sid) :
    retrieveFullSession db sid fp = .error "column fs.file_id does not exist" := by
  obtain ⟨s, hs, hid⟩ := h
  have hmem : s ∈ db.sessions.filter (fun t => t.id == sid) :=
    List.mem_filter.mpr ⟨hs, by simp [hid]⟩
  unfold retrieveFullSession
  cases hh : (db.sessions.filter (fun t => t.id == sid)).head? with
  | none =>
    rw [List.head?_eq_none_iff] at hh
    rw [hh] at hmem
    cases hmem
  | some t => rfl

theorem mem_sort_take {l : List SessionRow} {s : SessionRow}
    (h : s ∈ (sortSessionsByUpdatedDesc l).take 10) : s ∈ l := by
  have h1 := List.mem_of_mem_take h
  exact (List.perm_insertionSort _ l).subset h1

theorem mem_exactMatches {db : DB} {input : ResumeInput} {u : String} {s : SessionRow}
    (h : s ∈ exactMatches db input u) :
    s ∈ db.sessions ∧ s.userId = u ∧ s.name = input.session_name := by
  unfold exactMatches sortSessionsByVersionDesc at h
  have h1 := (List.perm_insertionSort _ _).subset h
  have h2 := List.mem_filter.mp h1
  refine ⟨h2.1, ?_, ?_⟩
  · have := h2.2
    simp only [Bool.and_eq_true, beq_iff_eq] at this
    exact this.1.1
  · have := h2.2
    simp only [Bool.and_eq_true, beq_iff_eq] at this
    exact this.1.2

theorem mem_fuzzyRows {db : DB} {input : ResumeInput} {u : String} {s : SessionRow}
    (h : s ∈ fuzzyRows db input u) :
    s ∈ db.sessions ∧ s.userId = u ∧ ilikeContains s.name input.session_name = true := by
  unfold fuzzyRows at h
  have h2 := List.mem_filter.mp h
  refine ⟨h2.1, ?_, ?_⟩
  · have := h2.2
    simp only [Bool.and_eq_true, beq_iff_eq] at this
    exact this.1.1
  · have := h2.2
    simp only [Bool.and_eq_true, beq_iff_eq] at this
    exact this.1.2

theorem any_congr {α : Type} {l : List α} {f g : α → Bool}
    (h : ∀ a ∈ l, f a = g a) : l.any f = l.any g := by
  induction l with
  | nil => rfl
  | cons x xs ih =>
    simp only [List.any_cons]
    rw [h x (by simp), ih (fun a ha => h a (by simp [ha]))]

/-- C4: the resume decision ladder. Two of its three outcomes behave as
specified: more than one exact match without a project filter returns the
bounded candidate list built from the exact matches, and zero exact
matches falls back to the case-insensitive substring search ordered by
most-recently-updated and capped at 10 candidates of the same bounded
shape. The third outcome is broken: a unique exact match never returns a
hydrated session — the hydration query references the nonexistent columns
`summaries.file_id`/`files.file_id`, so `resumeSession` always surfaces
the store error instead of a full session. -/
theorem C4_resume_outcomes :
    (∀ (db : DB) (input : ResumeInput) (u : String),
      1 < (exactMatches db input u).length → projFalsy input = true →
      resumeSession db input (some u) =
        .matches ((exactMatches db input u).map ambMatchOfRow)) ∧
    (∀ (db : DB) (input : ResumeInput) (u : String),
      exactMatches db input u = [] →
      (∀ s ∈ (sortSessionsByUpdatedDesc (fuzzyRows db input u)).take 10,
        (fileAggOf db s.id).isSome = true) →
      resumeSession db input (some u) =
        .matches (((sortSessionsByUpdatedDesc (fuzzyRows db input u)).take 10).map
          (fuzzyMatchOfRow db)) ∧
      ((sortSessionsByUpdatedDesc (fuzzyRows db input u)).take 10).length ≤ 10 ∧
      List.Pairwise (fun a b => b.updatedAt ≤ a.updatedAt)
        (sortSessionsByUpdatedDesc (fuzzyRows db input u)) ∧
      (∀ m ∈ ((sortSessionsByUpdatedDesc (fuzzyRows db input u)).take 10).map
          (fuzzyMatchOfRow db),
        ∃ s ∈ db.sessions, s.userId = u ∧ s.id = m.session_id ∧
          ilikeContains s.name input.session_name = true)) ∧
    (∀ (db : DB) (input : ResumeInput) (u : String) (s : SessionRow),
      exactMatches db input u = [s] →
      resumeSession db input (some u) = .err "column fs.file_id does not exist") := by
  refine ⟨?_, ?_, ?_⟩
  · intro db input u hlen hproj
    have hne : (exactMatches db input u).isEmpty = false := by
      cases hmm : exactMatches db input u with
      | nil => rw [hmm] at hlen; simp at hlen
      | cons a l => rfl
    simp [resumeSession, hne, hlen, hproj]
  · intro db input u hex hall
    have hany : ((sortSessionsByUpdatedDesc (fuzzyRows db input u)).take 10).any
        (fun s => (fileAggOf db s.id).isNone) = false := by
      rw [List.any_eq_false]
      intro s hs
      have h1 := hall s hs
      cases hagg : fileAggOf db s.id with
      | none => rw [hagg] at h1; simp at h1
      | some v => simp
    have hfz : fuzzySearchSessions db input u =
        .ok (((sortSessionsByUpdatedDesc (fuzzyRows db input u)).take 10).map
          (fuzzyMatchOfRow db)) := by
      unfold fuzzySearchSessions
      simp [hany]
    have hemp : (exactMatches db input u).isEmpty = true := by rw [hex]; rfl
    refine ⟨?_, ?_, ?_, ?_⟩
    · simp [resumeSession, hemp, hfz]
    · exact List.length_take_le 10 _
    · exact List.sorted_insertionSort _ _
    · intro m hm
      obtain ⟨s, hs, rfl⟩ := List.mem_map.mp hm
      have hsrc := mem_fuzzyRows (mem_sort_take hs)
      exact ⟨s, hsrc.1, hsrc.2.1, rfl, hsrc.2.2⟩
  · intro db input u s hone
    have hmem : s ∈ db.sessions := (mem_exactMatches (by rw [hone]; simp)).1
    have hret := retrieveFullSession_found_err db s.id input.file_path ⟨s, hmem, rfl⟩
    simp only [resumeSession]
    rw [hone]
    simp [hret]

theorem C4_witness :
    resumeSession dbResume
        { session_name := "bug-fix", project_name := none, file_path := none }
        (some "u1") =
      .matches ((exactMatches dbResume
        { session_name := "bug-fix", project_name := none, file_path := none }
        "u1").map ambMatchOfRow) ∧
    resumeSession dbResume
        { session_name := "fix", project_name := none, file_path := none }
        (some "u1") =
      .matches (((sortSessionsByUpdatedDesc (fuzzyRows dbResume
        { session_name := "fix", project_name := none, file_path := none }
        "u1")).take 10).map (fuzzyMatchOfRow dbResume)) ∧
    resumeSession dbResume
        { session_name := "bug-fix", project_name := some "proj-a", file_path := none }
        (some "u1") =
      .err "column fs.file_id does not exist" :=
  ⟨C4_resume_outcomes.1 dbResume _ "u1" (by decide) (by decide),
   (C4_resume_outcomes.2.1 dbResume
      { session_name := "fix", project_name := none, file_path := none }
      "u1" rfl (by decide)).1,
   C4_resume_outcomes.2.2 dbResume _ "u1" (sRow 1 "u1" "bug-fix" "proj-a" 1 5) rfl⟩

theorem listSessions_eq (db : DB) (input : ListInput) (u : String) :
    listSessions db input (some u) =
      (if (listWindow db input u).any (fun s => (fileAggOf db s.id).isNone) then
        .error "TypeError: null files aggregate"
      else
        .ok
          { sessions := (listWindow db input u).map (listEntryOf db)
            total := (db.sessions.filter (listPred db input u)).length
            limit := match input.limit with | some l => if l == 0 then 20 else l | none => 20
            offset := input.offset.getD 0 }) := rfl

theorem mem_listWindow {db : DB} {input : ListInput} {u : String} {s : SessionRow}
    (h : s ∈ listWindow db input u) : s ∈ db.sessions ∧ listPred db input u s = true := by
  have hrow : s ∈ db.sessions.filter (listPred db input u) := by
    unfold listWindow at h
    split at h
    · exact (List.perm_insertionSort _ _).subset
        (List.mem_of_mem_drop (List.mem_of_mem_take h))
    · exact (List.perm_insertionSort _ _).subset (List.mem_of_mem_drop h)
  exact List.mem_filter.mp hrow

theorem exactMatches_ext {u : String} {db db' : DB} (fe : ForeignExt u db db')
    (input : ResumeInput) : exactMatches db' input u = exactMatches db input u := by
  obtain ⟨exS, hS, hU⟩ := fe.sessions
  unfold exactMatches
  rw [hS, List.filter_append]
  have hnil : exS.filter (fun s =>
      s.userId == u && s.name == input.session_name &&
      (match input.project_name with
       | some p => s.projectName == p
       | none => true)) = [] := by
    rw [List.filter_eq_nil_iff]
    intro s hs
    simp only [Bool.and_eq_true, beq_iff_eq, not_and]
    rintro ⟨h1, -⟩
    exact absurd h1 (hU s hs)
  rw [hnil, List.append_nil]

theorem fuzzyRows_ext {u : String} {db db' : DB} (fe : ForeignExt u db db')
    (input : ResumeInput) : fuzzyRows db' input u = fuzzyRows db input u := by
  obtain ⟨exS, hS, hU⟩ := fe.sessions
  unfold fuzzyRows
  rw [hS, List.filter_append]
  have hnil : exS.filter (fun s =>
      s.userId == u && ilikeContains s.name input.session_name &&
      (match input.project_name with
       | some p => if p == "" then true else ilikeContains s.projectName p
       | none => true)) = [] := by
    rw [List.filter_eq_nil_iff]
    intro s hs
    simp only [Bool.and_eq_true, beq_iff_eq, not_and]
    rintro ⟨h1, -⟩
    exact absurd h1 (hU s hs)
  rw [hnil, List.append_nil]

theorem fileAggOf_ext {u : String} {db db' : DB} (fe : ForeignExt u db db')
    {s : SessionRow} (hs : s ∈ db.sessions) :
    fileAggOf db' s.id = fileAggOf db s.id := by
  obtain ⟨exF, hF, hD⟩ := fe.files
  have hfiles : filesOf db' s.id = filesOf db s.id := by
    unfold filesOf
    rw [hF, List.filter_append]
    have hnil : exF.filter (fun f => f.sessionId == s.id) = [] := by
      rw [List.filter_eq_nil_iff]
      intro f hf
      simp only [beq_iff_eq]
      exact hD f hf s hs
    rw [hnil, List.append_nil]
  unfold fileAggOf
  rw [hfiles]

theorem fuzzySearchSessions_ext {u : String} {db db' : DB} (fe : ForeignExt u db db')
    (input : ResumeInput) :
    fuzzySearchSessions db' input u = fuzzySearchSessions db input u := by
  have hrows := fuzzyRows_ext fe input
  simp only [fuzzySearchSessions, hrows]
  have hmemb : ∀ s ∈ (sortSessionsByUpdatedDesc (fuzzyRows db input u)).take 10,
      s ∈ db.sessions := fun s hs => (mem_fuzzyRows (mem_sort_take hs)).1
  have h1 : ((sortSessionsByUpdatedDesc (fuzzyRows db input u)).take 10).any
        (fun s => (fileAggOf db' s.id).isNone) =
      ((sortSessionsByUpdatedDesc (fuzzyRows db input u)).take 10).any
        (fun s => (fileAggOf db s.id).isNone) :=
    any_congr (fun s hs => by rw [fileAggOf_ext fe (hmemb s hs)])
  have h2 : ((sortSessionsByUpdatedDesc (fuzzyRows db input u)).take 10).map
        (fuzzyMatchOfRow db') =
      ((sortSessionsByUpdatedDesc (fuzzyRows db input u)).take 10).map
        (fuzzyMatchOfRow db) :=
    List.map_congr_left (fun s hs => by
      unfold fuzzyMatchOfRow
      rw [fileAggOf_ext fe (hmemb s hs)])
  rw [h1, h2]

theorem resumeSession_ext {u : String} {db db' : DB} (fe : ForeignExt u db db')
    (input : ResumeInput) :
    resumeSession db' input (some u) = resumeSession db input (some u) := by
  have hms := exactMatches_ext fe input
  have hfz := fuzzySearchSessions_ext fe input
  cases hh : (exactMatches db input u).head? with
  | none =>
    simp only [resumeSession]
    rw [hms, hfz]
    simp only [hh]
  | some s =>
    have hmem : s ∈ db.sessions := by
      cases hl : exactMatches db input u with
      | nil => rw [hl] at hh; cases hh
      | cons a t =>
        rw [hl] at hh
        injection hh with hh
        subst hh
        exact (mem_exactMatches (by rw [hl]; exact List.mem_cons_self _ _)).1
    obtain ⟨exS, hS, hU⟩ := fe.sessions
    have hmem' : s ∈ db'.sessions := by
      rw [hS]; exact List.mem_append_left _ hmem
    have he1 := retrieveFullSession_found_err db' s.id input.file_path ⟨s, hmem', rfl⟩
    have he2 := retrieveFullSession_found_err db s.id input.file_path ⟨s, hmem, rfl⟩
    simp only [resumeSession]
    rw [hms, hfz]
    simp only [hh, he1, he2]

theorem listPred_ext {u : String} {db db' : DB} (fe : ForeignExt u db db')
    (input : ListInput) {s : SessionRow} (hs : s ∈ db.sessions) :
    listPred db' input u s = listPred db input u s := by
  obtain ⟨exF, hF, hD⟩ := fe.files
  unfold listPred
  congr 1
  cases input.file_path with
  | none => rfl
  | some fp =>
    by_cases hfp : (fp == "") = true
    · simp [hfp]
    · simp only [Bool.not_eq_true] at hfp
      simp only [hfp]
      rw [hF, List.any_append]
      have hnil : exF.any (fun f => f.sessionId == s.id && ilikeContains f.path fp) =
          false := by
        rw [List.any_eq_false]
        intro f hf
        simp only [Bool.and_eq_true, beq_iff_eq, not_and]
        intro h1
        exact absurd h1 (hD f hf s hs)
      rw [hnil, Bool.or_false]

theorem listRows_ext {u : String} {db db' : DB} (fe : ForeignExt u db db')
    (input : ListInput) :
    db'.sessions.filter (listPred db' input u) =
      db.sessions.filter (listPred db input u) := by
  obtain ⟨exS, hS, hU⟩ := fe.sessions
  rw [hS, List.filter_append]
  have hnil : exS.filter (listPred db' input u) = [] := by
    rw [List.filter_eq_nil_iff]
    intro s hs
    intro hc
    simp only [listPred, Bool.and_eq_true, beq_iff_eq] at hc
    exact hU s hs hc.1.1
  rw [hnil, List.append_nil]
  exact List.filter_congr (fun s hs => listPred_ext fe input hs)

theorem listWindow_ext {u : String} {db db' : DB} (fe : ForeignExt u db db')
    (input : ListInput) : listWindow db' input u = listWindow db input u := by
  unfold listWindow
  rw [listRows_ext fe input]

theorem listSessions_ext {u : String} {db db' : DB} (fe : ForeignExt u db db')
    (input : ListInput) :
    listSessions db' input (some u) = listSessions db input (some u) := by
  have hw := listWindow_ext fe input
  have hr := listRows_ext fe input
  rw [listSessions_eq, listSessions_eq, hw, hr]
  have hmemb : ∀ s ∈ listWindow db input u, s ∈ db.sessions :=
    fun s hs => (mem_listWindow hs).1
  have h1 : (listWindow db input u).any (fun s => (fileAggOf db' s.id).isNone) =
      (listWindow db input u).any (fun s => (fileAggOf db s.id).isNone) :=
    any_congr (fun s hs => by rw [fileAggOf_ext fe (hmemb s hs)])
  have h2 : (listWindow db input u).map (listEntryOf db') =
      (listWindow db input u).map (listEntryOf db) :=
    List.map_congr_left (fun s hs => by
      unfold listEntryOf
      rw [fileAggOf_ext fe (hmemb s hs)])
  rw [h1, h2]

theorem fuzzy_members {db : DB} {input : ResumeInput} {u : String}
    {ms : List AmbMatch} (h : fuzzySearchSessions db input u = .ok ms) :
    ∀ m ∈ ms, ∃ s ∈ db.sessions, s.userId = u ∧ s.id = m.session_id := by
  unfold fuzzySearchSessions at h
  dsimp only at h
  split at h
  · cases h
  · injection h with h
    subst h
    intro m hm
    obtain ⟨s, hs, rfl⟩ := List.mem_map.mp hm
    have hsrc := mem_fuzzyRows (mem_sort_take hs)
    exact ⟨s, hsrc.1, hsrc.2.1, rfl⟩

/-- C5: user isolation. Every candidate returned by `resumeSession` and
every row returned by `listSessions` under user `u` comes from a session
row owned by `u`; and extending the store with rows of other users
(sessions owned by someone else, with their file, conversation, summary,
context and snapshot rows) changes neither the result of any
`resumeSession` call nor of any `listSessions` call made by `u` —
noninterference over all outcomes. -/
theorem C5_user_isolation :
    (∀ (db : DB) (u : String) (input : ResumeInput) (ms : List AmbMatch),
      resumeSession db input (some u) = .matches ms →
      ∀ m ∈ ms, ∃ s ∈ db.sessions, s.userId = u ∧ s.id = m.session_id) ∧
    (∀ (db : DB) (u : String) (input : ListInput) (o : ListOutput),
      listSessions db input (some u) = .ok o →
      ∀ e ∈ o.sessions, ∃ s ∈ db.sessions, s.userId = u ∧ s.id = e.session_id) ∧
    (∀ (u : String) (db db' : DB), ForeignExt u db db' →
      (∀ input : ResumeInput,
        resumeSession db' input (some u) = resumeSession db input (some u)) ∧
      (∀ input : ListInput,
        listSessions db' input (some u) = listSessions db input (some u))) := by
  refine ⟨?_, ?_, ?_⟩
  · intro db u input ms h
    simp only [resumeSession] at h
    by_cases hemp : (exactMatches db input u).isEmpty = true
    · rw [if_pos hemp] at h
      cases hfz : fuzzySearchSessions db input u with
      | ok found =>
        simp only [hfz] at h
        injection h with h
        subst h
        exact fuzzy_members hfz
      | error e =>
        simp only [hfz] at h
        cases h
    · rw [if_neg hemp] at h
      by_cases hc : (decide (1 < (exactMatches db input u).length) && projFalsy input)
          = true
      · rw [if_pos hc] at h
        injection h with h
        subst h
        intro m hm
        obtain ⟨s, hs, rfl⟩ := List.mem_map.mp hm
        have hsrc := mem_exactMatches hs
        exact ⟨s, hsrc.1, hsrc.2.1, rfl⟩
      · rw [if_neg hc] at h
        cases hh : (exactMatches db input u).head? with
        | none =>
          simp only [hh] at h
          cases h
        | some s =>
          obtain ⟨e, he⟩ := retrieveFullSession_isErr db s.id input.file_path
          simp only [hh, he] at h
          cases h
  · intro db u input o h
    rw [listSessions_eq] at h
    by_cases hc : (listWindow db input u).any (fun s => (fileAggOf db s.id).isNone)
        = true
    · rw [if_pos hc] at h
      cases h
    · rw [if_neg hc] at h
      injection h with h
      subst h
      intro e he
      dsimp only at he
      obtain ⟨s, hs, rfl⟩ := List.mem_map.mp he
      have hsrc := mem_listWindow hs
      refine ⟨s, hsrc.1, ?_, rfl⟩
      have hp := hsrc.2
      simp only [listPred, Bool.and_eq_true, beq_iff_eq] at hp
      exact hp.1.1
  · intro u db db' fe
    exact ⟨resumeSession_ext fe, listSessions_ext fe⟩

theorem C5_witness :
    (∀ m ∈ (exactMatches dbResume
        { session_name := "bug-fix", project_name := none, file_path := none }
        "u1").map ambMatchOfRow,
      ∃ s ∈ dbResume.sessions, s.userId = "u1" ∧ s.id = m.session_id) ∧
    (∃ o, listSessions dbResume
        { project_name := none, file_path := none, limit := none, offset := none }
        (some "u1") = .ok o ∧
      ∀ e ∈ o.sessions, ∃ s ∈ dbResume.sessions, s.userId = "u1" ∧
        s.id = e.session_id) ∧
    resumeSession dbResumeB
        { session_name := "bug-fix", project_name := none, file_path := none }
        (some "u1") =
      resumeSession dbResume
        { session_name := "bug-fix", project_name := none, file_path := none }
        (some "u1") ∧
    listSessions dbResumeB
        { project_name := none, file_path := none, limit := none, offset := none }
        (some "u1") =
      listSessions dbResume
        { project_name := none, file_path := none, limit := none, offset := none }
        (some "u1") := by
  have fe : ForeignExt "u1" dbResume dbResumeB :=
    { sessions := ⟨[sRow 3 "u2" "bug-fix" "proj-a" 1 7], rfl, by decide⟩
      files := ⟨[fRow 12 3 "a.ts"], rfl, by decide⟩
      convs := ⟨[], by simp [dbResume, dbResumeB]⟩
      summaries := ⟨[], by simp [dbResume, dbResumeB]⟩
      contexts := ⟨[], by simp [dbResume, dbResumeB]⟩
      snapshots := ⟨[], by simp [dbResume, dbResumeB]⟩ }
  refine ⟨?_, ?_, ?_, ?_⟩
  · exact C5_user_isolation.1 dbResume "u1"
      { session_name := "bug-fix", project_name := none, file_path := none }
      ((exactMatches dbResume
        { session_name := "bug-fix", project_name := none, file_path := none }
        "u1").map ambMatchOfRow) rfl
  · exact ⟨_, rfl, C5_user_isolation.2.1 dbResume "u1"
      { project_name := none, file_path := none, limit := none, offset := none }
      _ rfl⟩
  · exact (C5_user_isolation.2.2 "u1" dbResume dbResumeB fe).1
      { session_name := "bug-fix", project_name := none, file_path := none }
  · exact (C5_user_isolation.2.2 "u1" dbResume dbResumeB fe).2
      { project_name := none, file_path := none, limit := none, offset := none }
